import Mathlib

/-!
# Verification of the BossTimerBot core (src/bot.py)

Shallow embedding of the bot's data model and operations:

* `DT` models a Python `datetime` carrying the fixed time zone
  `ZoneInfo("Asia/Seoul")`.  Every datetime the program creates, stores,
  persists or compares carries this single zone, which is a constant
  UTC+09:00 offset throughout the program's operational era, so the zone
  is erased from the representation and the persisted-offset suffix is
  the constant string `+09:00`.  A Python `datetime` is a tuple of
  calendar fields (year, month, day, hour, minute, second, microsecond);
  `DT` stores exactly those fields.  Comparison and subtraction of
  same-offset aware datetimes act on the linearisation of the fields
  (days-since-epoch and microseconds-of-day), embodied here by
  `DT.toMicros`.
* `BOSS_CYCLE`, `parse_time`, `calc_spawn`, `register_boss`,
  `on_message` and the body of one iteration of `alarm_loop`
  (`alarmTick`) are translated from `src/bot.py`.
* `save_data`/`load_data` model the JSON persistence.  The persisted
  document is modelled structurally (`Doc`): JSON well-formed text
  round-trips through `json.dump`/`json.load` exactly, so the document
  tree is the faithful level of abstraction; timestamp values inside the
  tree are genuine strings produced by `str(datetime)` (`dtStr`) and
  consumed by `datetime.fromisoformat` (`fromiso`), which is where the
  parse failures that `load_data` tolerates occur.
* Reply texts sent back to Discord are modelled as a tagged type
  (`Reply`) carrying the data interpolated into the message; the exact
  surface text is presentation only.
-/

namespace BossBot

/-- A Python `datetime` value in the program's fixed `Asia/Seoul` zone:
the raw calendar fields, exactly as CPython stores them. -/
structure DT where
  year : Nat
  month : Nat
  day : Nat
  hour : Nat
  minute : Nat
  second : Nat
  micro : Nat
deriving DecidableEq

/-- Gregorian leap-year rule (as in CPython's `datetime`). -/
def isLeapB (y : Nat) : Bool :=
  (y % 4 == 0 && y % 100 != 0) || y % 400 == 0

/-- Length of a month (1..12); 0 for out-of-range month numbers. -/
def monthLen (leap : Bool) : Nat → Nat
  | 1 => 31
  | 2 => if leap then 29 else 28
  | 3 => 31
  | 4 => 30
  | 5 => 31
  | 6 => 30
  | 7 => 31
  | 8 => 31
  | 9 => 30
  | 10 => 31
  | 11 => 30
  | 12 => 31
  | _ => 0

def daysInMonth (y m : Nat) : Nat := monthLen (isLeapB y) m

/-- Days in the year strictly before month `m`. -/
def daysBeforeMonth (leap : Bool) : Nat → Nat
  | 1 => 0
  | 2 => 31
  | 3 => if leap then 60 else 59
  | 4 => if leap then 91 else 90
  | 5 => if leap then 121 else 120
  | 6 => if leap then 152 else 151
  | 7 => if leap then 182 else 181
  | 8 => if leap then 213 else 212
  | 9 => if leap then 244 else 243
  | 10 => if leap then 274 else 273
  | 11 => if leap then 305 else 304
  | 12 => if leap then 335 else 334
  | _ => 0

/-- Days since 0001-01-01 of the first day of year `y`
(`date(y,1,1).toordinal() - 1` in CPython). -/
def daysBeforeYear (y : Nat) : Nat :=
  365 * (y - 1) + (y - 1) / 4 - (y - 1) / 100 + (y - 1) / 400

/-- The calendar fields are in range (CPython validates these on
construction, except that the year is additionally capped at 9999,
recorded separately in `DT.Valid`). -/
def DT.Fields (t : DT) : Prop :=
  1 ≤ t.year ∧ 1 ≤ t.month ∧ t.month ≤ 12 ∧ 1 ≤ t.day ∧
    t.day ≤ daysInMonth t.year t.month ∧ t.hour ≤ 23 ∧ t.minute ≤ 59 ∧
    t.second ≤ 59 ∧ t.micro < 1000000

instance (t : DT) : Decidable t.Fields := by
  unfold DT.Fields; infer_instance

/-- A datetime CPython can represent: fields in range and year ≤ 9999. -/
def DT.Valid (t : DT) : Prop := t.Fields ∧ t.year ≤ 9999

instance (t : DT) : Decidable t.Valid := by
  unfold DT.Valid; infer_instance

def usPerSec : Nat := 1000000
def usPerMin : Nat := 60 * usPerSec
def usPerHour : Nat := 60 * usPerMin
def usPerDay : Nat := 24 * usPerHour

/-- Day number (days since 0001-01-01) of a datetime's date. -/
def DT.toDays (t : DT) : Nat :=
  daysBeforeYear t.year + daysBeforeMonth (isLeapB t.year) t.month + (t.day - 1)

/-- Microseconds since local midnight. -/
def DT.todUs (t : DT) : Nat :=
  ((t.hour * 60 + t.minute) * 60 + t.second) * usPerSec + t.micro

/-- Linearisation of a datetime: microseconds since 0001-01-01 00:00 local
time.  CPython compares and subtracts same-offset aware datetimes by
exactly this linearisation of their fields. -/
def DT.toMicros (t : DT) : Nat := t.toDays * usPerDay + t.todUs

/-- Comparison `a <= b` on same-zone aware datetimes. -/
def DT.leB (a b : DT) : Bool := a.toMicros ≤ b.toMicros

/-- Strict comparison `a < b` on same-zone aware datetimes. -/
def DT.ltB (a b : DT) : Bool := a.toMicros < b.toMicros

/-- Truncation `t.replace(second=0, microsecond=0)` (what `alarm_loop`
applies to `now` and to each stored `spawn`). -/
def truncMin (t : DT) : DT := { t with second := 0, micro := 0 }

/-- Replacement `now.replace(hour=hh, minute=mm, second=0, microsecond=0)`
(from `calc_spawn`). -/
def replaceHM (t : DT) (hh mm : Nat) : DT :=
  { t with hour := hh, minute := mm, second := 0, micro := 0 }

/-- Successor day of a date (fields of `t` other than the date are kept). -/
def nextDay (t : DT) : DT :=
  if t.day < daysInMonth t.year t.month then { t with day := t.day + 1 }
  else if t.month < 12 then { t with month := t.month + 1, day := 1 }
  else { t with year := t.year + 1, month := 1, day := 1 }

/-- Add `n` days to a datetime's date. -/
def addDays (t : DT) : Nat → DT
  | 0 => t
  | n + 1 => addDays (nextDay t) n

/-- Addition `t + timedelta(hours=k)`: CPython normalises the fields; the time
fields shift within the day and the remaining whole days carry into the
date. -/
def addHours (t : DT) (k : Nat) : DT :=
  addDays { t with hour := (t.hour + k) % 24 } ((t.hour + k) / 24)

/-- Predecessor day of a date. -/
def prevDay (t : DT) : DT :=
  if 1 < t.day then { t with day := t.day - 1 }
  else if 1 < t.month then
    { t with month := t.month - 1, day := monthLen (isLeapB t.year) (t.month - 1) }
  else { t with year := t.year - 1, month := 12, day := 31 }

/-- Rebuild the time-of-day fields from microseconds since midnight. -/
def setTod (t : DT) (u : Nat) : DT :=
  { t with hour := u / usPerHour, minute := u % usPerHour / usPerMin,
           second := u % usPerMin / usPerSec, micro := u % usPerSec }

/-- Subtraction `t - timedelta(minutes=k)` for `k` less than a day (the program only
uses `k = PRE_ALERT_MIN = 10`): borrow at most one calendar day. -/
def subMinutes (t : DT) (k : Nat) : DT :=
  let tod := t.todUs
  let kus := k * usPerMin
  if kus ≤ tod then setTod t (tod - kus)
  else setTod (prevDay t) (t.todUs + usPerDay - kus)

/-- First-match association-list lookup (Python `dict` access). -/
def alookup {κ ν : Type} [DecidableEq κ] (k : κ) : List (κ × ν) → Option ν
  | [] => none
  | (k', v) :: t => if k' = k then some v else alookup k t

/-- The fixed boss catalog `BOSS_CYCLE` (name → cycle hours). -/
def BOSS_CYCLE : List (String × Nat) :=
  [("언두미엘", 18), ("에고", 16), ("아라네오", 18), ("리베라", 18),
   ("베나투스", 4), ("비오렌트", 4), ("레이디 달리아", 14),
   ("장군 아쿨레우스", 22), ("아멘티스", 22), ("남작 브라우드모어", 24),
   ("와니타스", 36), ("메투스", 36), ("듀플리칸", 36),
   ("슈라이어", 26), ("가레스", 24), ("티토르", 28), ("라르바", 26)]

/-- Constant `PRE_ALERT_MIN = 10`. -/
def PRE_ALERT_MIN : Nat := 10

/-- Model of `calc_spawn(boss, hh, mm)` with the call to `datetime.now(TZ)` made
an explicit `now` argument.  `BOSS_CYCLE[boss]` raises `KeyError` for an
unknown name, modelled as `none`. -/
def calc_spawn (boss : String) (hh mm : Nat) (now : DT) :
    Option (DT × DT × Nat) :=
  match alookup boss BOSS_CYCLE with
  | none => none
  | some cycle =>
    let kill := replaceHM now hh mm
    some (addHours kill cycle, kill, cycle)

/-- ASCII whitespace matched by the regex class `\s#` (space, tab,
newline, carriage return, vertical tab, form feed).  The model restricts
the Unicode character classes of Python's `re` and `int()` to ASCII; the
program's own inputs and outputs only use ASCII digits and spaces. -/
def isWsB (c : Char) : Bool :=
  c.toNat = 32 || c.toNat = 9 || c.toNat = 10 || c.toNat = 13 ||
    c.toNat = 11 || c.toNat = 12

/-- ASCII decimal digit (`\d`). -/
def isDigitB (c : Char) : Bool := 48 ≤ c.toNat && c.toNat ≤ 57

/-- Numeric value of a digit character. -/
def chVal (c : Char) : Nat := c.toNat - 48

/-- Value of a most-significant-first digit string (`int()` on a string
of digits). -/
def listVal (cs : List Char) : Nat :=
  cs.foldl (fun a c => a * 10 + chVal c) 0

/-- Model of `parse_time(text)`: the regex match
`^\s#(\d{1,2}):(\d{2})\s#$` followed by the range check
`0 <= hh <= 23 and 0 <= mm <= 59`.  (`#` stands for the star
quantifier.)  The regex is deterministic despite backtracking: a run of
three or more digits before the colon fails both the two-digit and the
one-digit attempt, so matching maximal digit runs is equivalent. -/
def parse_time (text : String) : Option (Nat × Nat) :=
  let cs := text.data.dropWhile isWsB
  let d1 := cs.takeWhile isDigitB
  let cs1 := cs.dropWhile isDigitB
  if d1.length = 0 || 2 < d1.length then none
  else
    match cs1 with
    | ':' :: cs2 =>
      let d2 := cs2.takeWhile isDigitB
      let cs3 := cs2.dropWhile isDigitB
      if d2.length ≠ 2 then none
      else if cs3.all isWsB then
        let hh := listVal d1
        let mm := listVal d2
        if hh ≤ 23 && mm ≤ 59 then some (hh, mm) else none
      else none
    | _ => none

/-- Spec-side description of the strings `parse_time` accepts (this
definition follows the words of the claim, to be compared with the
implementation): optional whitespace, one or two digits of hours, a
colon, exactly two digits of minutes, optional whitespace — with the
hour value at most 23 and the minute value at most 59. -/
def SpecTimeShape (s : String) : Prop :=
  ∃ w1 d1 d2 w2 : List Char,
    s.data = w1 ++ d1 ++ ':' :: (d2 ++ w2) ∧
    (∀ c ∈ w1, isWsB c = true) ∧ (∀ c ∈ w2, isWsB c = true) ∧
    (∀ c ∈ d1, isDigitB c = true) ∧ (∀ c ∈ d2, isDigitB c = true) ∧
    1 ≤ d1.length ∧ d1.length ≤ 2 ∧ d2.length = 2 ∧
    listVal d1 ≤ 23 ∧ listVal d2 ≤ 59

/-- One schedule record, the value stored at `SCHEDULES[gid][boss]`. -/
structure Rec where
  spawn : DT
  kill : DT
  channel : Int
  prealert_sent : Bool
deriving DecidableEq

/-- Inner dict `SCHEDULES[gid]`: boss name → record.  Python dicts preserve
insertion order, modelled by association lists with unique keys. -/
abbrev Entries := List (String × Rec)

/-- The global `SCHEDULES`: guild id → entries. -/
abbrev Store := List (Int × Entries)

/-- Assignment `d[k] = v` on a dict: an existing key keeps its position,
a new key is appended. -/
def alistInsert {κ ν : Type} [DecidableEq κ] (k : κ) (v : ν) :
    List (κ × ν) → List (κ × ν)
  | [] => [(k, v)]
  | (k', v') :: t =>
    if k' = k then (k, v) :: t else (k', v') :: alistInsert k v t

/-- Deletion `del d[k]` (the caller has checked membership). -/
def alistErase {κ ν : Type} [DecidableEq κ] (k : κ) :
    List (κ × ν) → List (κ × ν)
  | [] => []
  | (k', v') :: t => if k' = k then t else (k', v') :: alistErase k t

/-- The update `SCHEDULES.setdefault(gid, \x7b\x7d)[boss] = rec`. -/
def storeInsert (g : Int) (b : String) (r : Rec) (s : Store) : Store :=
  match alookup g s with
  | some es => alistInsert g (alistInsert b r es) s
  | none => s ++ [(g, [(b, r)])]

/-- The deletion `del SCHEDULES[gid][boss]`. -/
def storeDelete (g : Int) (b : String) (s : Store) : Store :=
  s.map fun p => if p.1 = g then (p.1, alistErase b p.2) else p

/-- Python `str.strip()`. -/
def pyStrip (s : String) : String :=
  String.mk (((s.data.dropWhile isWsB).reverse.dropWhile isWsB).reverse)

/-- Python `str.startswith(p)`. -/
def pyStartswith (s p : String) : Bool := p.data.isPrefixOf s.data

/-- Accumulator pass of `str.split()`. -/
def pySplitGo : List Char → List Char → List String
  | [], acc => if acc.isEmpty then [] else [String.mk acc.reverse]
  | c :: cs, acc =>
    if isWsB c then
      if acc.isEmpty then pySplitGo cs []
      else String.mk acc.reverse :: pySplitGo cs []
    else pySplitGo cs (c :: acc)

/-- Python `str.split()`: split on whitespace runs, dropping empty pieces. -/
def pySplit (s : String) : List String := pySplitGo s.data []

/-- Insert into an already-processed prefix, placing `x` after every
element it does not strictly precede. -/
def insSorted {α : Type} (le : α → α → Bool) (x : α) : List α → List α
  | [] => [x]
  | y :: ys => if le y x then y :: insSorted le x ys else x :: y :: ys

/-- Python's stable `sorted`, as a left fold of stable insertions. -/
def pySorted {α : Type} (le : α → α → Bool) (xs : List α) : List α :=
  xs.foldl (fun acc x => insSorted le x acc) []

/-- A reply the bot sends back to the commanding channel.  Each
constructor carries the data interpolated into the corresponding Korean
message text of `src/bot.py`; the surface text is presentation only. -/
inductive Reply
  /-- Reply `"형식: 13:30"` — time format rejection. -/
  | formatError
  /-- Reply `"사용법: .삭제 보스이름"`. -/
  | usageDelete
  /-- Reply `"사용법: .보스명 13:30"`. -/
  | usageRegister
  /-- Reply `"존재하지 않는 보스명입니다."`. -/
  | unknownBoss
  /-- Reply `"등록된 젠이 없습니다."`. -/
  | noRecords
  /-- Reply of 'no record for this boss'. -/
  | notFound (boss : String)
  /-- Reply of 'record deleted'. -/
  | deleted (boss : String)
  /-- registration confirmation with kill time, next spawn and cycle. -/
  | registered (boss : String) (spawn kill : DT) (cycle : Nat)
  /-- the `.보스` embed: (boss, spawn) fields sorted by spawn time. -/
  | bossList (entries : List (String × DT))
deriving DecidableEq

/-- Model of `register_boss(message, boss_name, time_str)`.  Returns the new
store, the replies sent to `message.channel`, and whether `save_data`
was invoked.  The `none` arm of `calc_spawn` is unreachable: the caller
has already checked `boss_name in BOSS_CYCLE`. -/
def register_boss (s : Store) (now : DT) (g cid : Int)
    (bossName timeStr : String) : Store × List (Int × Reply) × Bool :=
  match parse_time timeStr with
  | none => (s, [(cid, .formatError)], false)
  | some (hh, mm) =>
    match calc_spawn bossName hh mm now with
    | none => (s, [], false)
    | some (spawn, kill, cycle) =>
      (storeInsert g bossName ⟨spawn, kill, cid, false⟩ s,
        [(cid, .registered bossName spawn kill cycle)], true)

/-- The inbound message as the handler sees it. -/
structure MsgCtx where
  author_bot : Bool
  content : String
  guild : Int
  channel : Int

/-- Drop the first character (`content[1:]`). -/
def strTail (s : String) : String := String.mk s.data.tail

/-- Model of `on_message(message)` with `datetime.now(TZ)` an explicit argument.
Returns the new store, the replies sent, and whether `save_data` was
invoked. -/
def on_message (s : Store) (now : DT) (ctx : MsgCtx) :
    Store × List (Int × Reply) × Bool :=
  if ctx.author_bot then (s, [], false)
  else
    let content := pyStrip ctx.content
    let g := ctx.guild
    if content = ".보스" then
      let items := (alookup g s).getD []
      if items.isEmpty then (s, [(ctx.channel, .noRecords)], false)
      else
        (s, [(ctx.channel, .bossList
          ((pySorted (fun a b => DT.leB a.2.spawn b.2.spawn) items).map
            fun p => (p.1, p.2.spawn)))], false)
    else if pyStartswith content ".삭제" then
      match pySplit content with
      | [_, boss] =>
        match alookup g s with
        | none => (s, [(ctx.channel, .notFound boss)], false)
        | some es =>
          match alookup boss es with
          | none => (s, [(ctx.channel, .notFound boss)], false)
          | some _ =>
            (storeDelete g boss s, [(ctx.channel, .deleted boss)], true)
      | _ => (s, [(ctx.channel, .usageDelete)], false)
    else if pyStartswith content "." then
      match pySplit (strTail content) with
      | [bossName, timeStr] =>
        if (alookup bossName BOSS_CYCLE).isNone then
          (s, [(ctx.channel, .unknownBoss)], false)
        else register_boss s now g ctx.channel bossName timeStr
      | _ => (s, [(ctx.channel, .usageRegister)], false)
    else (s, [], false)

/-- Kind of alert `alarm_loop` sends. -/
inductive AlertKind
  /-- the pre-alert, 10 minutes before spawn. -/
  | pre
  /-- the final spawn alert. -/
  | fin
deriving DecidableEq

/-- One attempted `ch.send` in `alarm_loop`, tagged with the record it
was sent for. -/
structure Alert where
  gid : Int
  boss : String
  kind : AlertKind
  channel : Int
deriving DecidableEq

/-- Whether a given `ch.send` call succeeds or raises. -/
abbrev SendOracle := Alert → Bool

/-- The oracle under which every send succeeds. -/
def allOk : SendOracle := fun _ => true

/-- Result of processing one record inside a tick: the surviving record
(if any), the alerts sent, and whether the record was mutated or removed
(the contribution to the `changed` flag). -/
structure RecStep where
  rem : Option Rec
  alerts : List Alert
  changed : Bool
deriving DecidableEq

/-- Processing of a single record in one `alarm_loop` iteration, when
every send succeeds (lines 175-188 of `src/bot.py`): resolve the
channel (skip the record if gone), then the pre-alert check, then the
final-alert check. -/
def tickRecOk (res : Int → Bool) (nowT : DT) (g : Int) (b : String)
    (r : Rec) : RecStep :=
  if res r.channel = false then ⟨some r, [], false⟩
  else
    let spawnT := truncMin r.spawn
    let pre := subMinutes spawnT PRE_ALERT_MIN
    let fire1 : Bool := DT.leB pre nowT && !r.prealert_sent && DT.ltB nowT spawnT
    let r1 := if fire1 then { r with prealert_sent := true } else r
    let a1 := if fire1 then [Alert.mk g b .pre r.channel] else []
    if DT.leB spawnT nowT then ⟨none, a1 ++ [Alert.mk g b .fin r.channel], true⟩
    else ⟨some r1, a1, fire1⟩

/-- Processing of a single record, with sends that can raise.  `ch.send`
is awaited before the corresponding mutation, so a raising send leaves
the record as it stood; the error payload is the record state at the
raise together with the alerts already delivered for this record. -/
def tickRecE (res : Int → Bool) (ok : SendOracle) (nowT : DT) (g : Int)
    (b : String) (r : Rec) : Except (Rec × List Alert) RecStep :=
  if res r.channel = false then .ok ⟨some r, [], false⟩
  else
    let spawnT := truncMin r.spawn
    let pre := subMinutes spawnT PRE_ALERT_MIN
    let fire1 : Bool := DT.leB pre nowT && !r.prealert_sent && DT.ltB nowT spawnT
    if fire1 && !ok (Alert.mk g b .pre r.channel) then .error (r, [])
    else
      let r1 := if fire1 then { r with prealert_sent := true } else r
      let a1 := if fire1 then [Alert.mk g b .pre r.channel] else []
      if DT.leB spawnT nowT then
        if ok (Alert.mk g b .fin r.channel) then
          .ok ⟨none, a1 ++ [Alert.mk g b .fin r.channel], true⟩
        else .error (r1, a1)
      else .ok ⟨some r1, a1, fire1⟩

/-- Prepend the surviving record (if any) to an entry list. -/
def consOpt (b : String) (orec : Option Rec) (l : Entries) : Entries :=
  match orec with
  | some r => (b, r) :: l
  | none => l

/-- One tick's pass over `list(entries.items())` for one tenant.  An
uncaught exception aborts the pass; the error payload is the entry list
as it stands at the raise and the alerts delivered so far. -/
def tickEntries (res : Int → Bool) (ok : SendOracle) (nowT : DT)
    (g : Int) : Entries → Except (Entries × List Alert) (Entries × List Alert × Bool)
  | [] => .ok ([], [], false)
  | (b, r) :: rest =>
    match tickRecE res ok nowT g b r with
    | .error (r', as) => .error ((b, r') :: rest, as)
    | .ok step =>
      match tickEntries res ok nowT g rest with
      | .error (rest', as') => .error (consOpt b step.rem rest', step.alerts ++ as')
      | .ok (rest', as', ch') =>
        .ok (consOpt b step.rem rest', step.alerts ++ as', step.changed || ch')

/-- One tick's pass over `list(SCHEDULES.items())`.  A tenant whose
entries all get retired keeps its (now empty) key, as in the source. -/
def tickStore (res : Int → Bool) (ok : SendOracle) (nowT : DT) :
    Store → Except (Store × List Alert) (Store × List Alert × Bool)
  | [] => .ok ([], [], false)
  | (g, es) :: rest =>
    match tickEntries res ok nowT g es with
    | .error (es', as) => .error ((g, es') :: rest, as)
    | .ok (es', as, ch) =>
      match tickStore res ok nowT rest with
      | .error (rest', as') => .error ((g, es') :: rest', as ++ as')
      | .ok (rest', as', ch') => .ok ((g, es') :: rest', as ++ as', ch || ch')

/-- Character for one decimal digit value. -/
def digitChar : Nat → Char
  | 0 => '0'
  | 1 => '1'
  | 2 => '2'
  | 3 => '3'
  | 4 => '4'
  | 5 => '5'
  | 6 => '6'
  | 7 => '7'
  | 8 => '8'
  | _ => '9'

/-- Decimal digit characters of `n`, most significant first (empty for 0). -/
def digitChars (n : Nat) : List Char :=
  ((Nat.digits 10 n).reverse).map digitChar

/-- Zero-padded fixed-width decimal rendering (`%0kd`). -/
def padDigits (k n : Nat) : List Char :=
  List.replicate (k - (digitChars n).length) '0' ++ digitChars n

/-- The fractional part of `str(datetime)`: omitted when the microsecond
is zero, else a dot and six digits. -/
def microPart (us : Nat) : List Char :=
  if us = 0 then [] else '.' :: padDigits 6 us

/-- Rendering `str(t)` of an `Asia/Seoul`-aware datetime (what
`json.dump(..., default=str)` writes):
`YYYY-MM-DD HH:MM:SS[.ffffff]+09:00`. -/
def dtStr (t : DT) : String :=
  String.mk (padDigits 4 t.year ++ ('-' :: (padDigits 2 t.month ++
    ('-' :: (padDigits 2 t.day ++ (' ' :: (padDigits 2 t.hour ++
    (':' :: (padDigits 2 t.minute ++ (':' :: (padDigits 2 t.second ++
    (microPart t.micro ++ ['+', '0', '9', ':', '0', '0']))))))))))))

/-- Read exactly `k` digit characters into a number. -/
def readDigitsAux : Nat → Nat → List Char → Option (Nat × List Char)
  | 0, acc, cs => some (acc, cs)
  | _ + 1, _, [] => none
  | k + 1, acc, c :: cs =>
    if isDigitB c then readDigitsAux k (acc * 10 + chVal c) cs else none

/-- Require the next character to be `c`. -/
def expectC (c : Char) : List Char → Option (List Char)
  | [] => none
  | x :: xs => if x = c then some xs else none

/-- Optional `:SS[.ffffff]` part of an ISO time. -/
def parseSecFrac (cs : List Char) : Option (Nat × Nat × List Char) :=
  match cs with
  | ':' :: cs1 =>
    (match readDigitsAux 2 0 cs1 with
     | none => none
     | some (ss, cs2) =>
       match cs2 with
       | '.' :: cs3 =>
         (match readDigitsAux 6 0 cs3 with
          | none => none
          | some (us, cs4) => some (ss, us, cs4))
       | _ => some (ss, 0, cs2))
  | _ => some (0, 0, cs)

/-- Model of `datetime.fromisoformat` on the aware strings this program
persists: `YYYY-MM-DD HH:MM[:SS[.ffffff]]+09:00` with a space or `T`
separator, validated exactly as the `datetime` constructor validates its
fields.  Strings carrying other offsets or shapes that CPython would
also accept are outside the modelled subset; the program itself only
writes (and therefore only reads back) strings of this shape. -/
def fromiso (s : String) : Option DT := do
  let (y, cs) ← readDigitsAux 4 0 s.data
  let cs ← expectC '-' cs
  let (mo, cs) ← readDigitsAux 2 0 cs
  let cs ← expectC '-' cs
  let (d, cs) ← readDigitsAux 2 0 cs
  let cs ← (match cs with
            | c :: rest => if c = ' ' || c = 'T' then some rest else none
            | [] => none)
  let (hh, cs) ← readDigitsAux 2 0 cs
  let cs ← expectC ':' cs
  let (mi, cs) ← readDigitsAux 2 0 cs
  let (ss, us, cs) ← parseSecFrac cs
  if cs = ['+', '0', '9', ':', '0', '0'] then
    let t : DT := ⟨y, mo, d, hh, mi, ss, us⟩
    if t.Valid then some t else none
  else none

/-- Decimal digit characters of a natural number (`str` on a
nonnegative int). -/
def natChars (n : Nat) : List Char := if n = 0 then ['0'] else digitChars n

/-- Python `str` on an int (the form `json.dump` gives an int dict key). -/
def pyIntStr (g : Int) : String :=
  if g < 0 then String.mk ('-' :: natChars g.natAbs)
  else String.mk (natChars g.natAbs)

/-- Value of a nonempty all-digit string. -/
def digitsVal? (cs : List Char) : Option Nat :=
  if cs.isEmpty then none
  else if cs.all isDigitB then some (listVal cs) else none

/-- Model of Python `int(str)` on canonical integer literals (optional
sign and ASCII digits; the whitespace, underscore and Unicode-digit
liberality of CPython is outside the modelled subset — the keys this
program writes are canonical). -/
def pyInt (s : String) : Option Int :=
  match s.data with
  | '-' :: rest => (digitsVal? rest).map (fun n => -(n : Int))
  | '+' :: rest => (digitsVal? rest).map (fun n => (n : Int))
  | cs => (digitsVal? cs).map (fun n => (n : Int))

/-- A JSON value of the shapes this document uses. -/
inductive JVal
  /-- a JSON string. -/
  | jstr (s : String)
  /-- a JSON integer. -/
  | jnum (n : Int)
  /-- a JSON boolean. -/
  | jbool (b : Bool)
deriving DecidableEq

/-- Python truthiness of a `JVal` (applied to the raw persisted
`prealert_sent` value, whose only uses in the program are boolean
tests). -/
def jTruthy : JVal → Bool
  | .jstr s => if s = "" then false else true
  | .jnum n => if n = 0 then false else true
  | .jbool b => b

/-- One persisted record: a JSON object. -/
abbrev JRec := List (String × JVal)

instance : DecidableEq JRec := inferInstance

instance : DecidableEq (String × JRec) := inferInstance

instance : DecidableEq (List (String × JRec)) := inferInstance

instance : DecidableEq (String × List (String × JRec)) := inferInstance

/-- The persisted document: tenant key (a decimal string) → boss name →
record object. -/
abbrev Doc := List (String × List (String × JRec))

instance : DecidableEq Doc := inferInstance

/-- Serialisation of one record (insertion order of the dict literal at
lines 54-59 / 92-97 of `src/bot.py`). -/
def jrecOf (r : Rec) : JRec :=
  [("spawn", .jstr (dtStr r.spawn)), ("kill", .jstr (dtStr r.kill)),
   ("channel", .jnum r.channel), ("prealert_sent", .jbool r.prealert_sent)]

/-- Model of `save_data()`: serialise the whole store
(`json.dump(SCHEDULES, f, ..., default=str)`; int keys become their
decimal strings, datetimes go through `str`). -/
def save_data (s : Store) : Doc :=
  s.map fun p => (pyIntStr p.1, p.2.map fun q => (q.1, jrecOf q.2))

/-- Parse of one persisted record into the `Rec` abstraction (whose
channel is an id, `Int`), used for the round trip through documents the
program itself wrote: there `spawn` and `kill` are `str(datetime)`
strings and `channel` is the integer id `register_boss` stored.  The
inner `try` of `load_data` in full generality — line 57 copies the
channel value untyped, so any present channel value loads — is
`parseRecL` below; on records of the program-written shape the two
agree. -/
def parseRec (d : JRec) : Option Rec :=
  match alookup "spawn" d, alookup "kill" d, alookup "channel" d with
  | some (.jstr s1), some (.jstr s2), some (.jnum ch) =>
    (match fromiso s1, fromiso s2 with
     | some sp, some ki =>
       some ⟨sp, ki, ch, ((alookup "prealert_sent" d).map jTruthy).getD false⟩
     | _, _ => none)
  | _, _, _ => none

/-- Per-tenant loop of `load_data`: records that parse are kept in
order, records that raise are skipped and their names logged. -/
def loadTenant : List (String × JRec) → Entries × List String
  | [] => ([], [])
  | (b, jr) :: rest =>
    let (es, logs) := loadTenant rest
    match parseRec jr with
    | some r => ((b, r) :: es, logs)
    | none => (es, b :: logs)

/-- What `load_data` found on disk: no file, a file `json.load` (or the
outer loop) raises on, or a structurally well-formed document. -/
inductive RawFile
  /-- `os.path.exists` is false. -/
  | absent
  /-- the document as a whole is unreadable or corrupt. -/
  | corrupt
  /-- a parsed document tree. -/
  | parsed (d : Doc)

/-- Outcome of `load_data`: the reconstructed store, the documents
written by any `save_data` call it made, and the names of skipped
records (logged). -/
structure LoadResult where
  store : Store
  saves : List Doc
  skipped : List String
deriving DecidableEq

/-- Outer loop of `load_data` over tenants.  A tenant key `int()` cannot
parse raises out of the per-record `try`, landing in the outer
`except`: the store is reset to empty and `save_data()` writes a fresh
empty document. -/
def loadGo : List (String × List (String × JRec)) → Store → List String →
    LoadResult
  | [], st, logs => ⟨st, [], logs⟩
  | (gs, bs) :: rest, st, logs =>
    match pyInt gs with
    | none => ⟨[], [save_data []], logs⟩
    | some g =>
      let (es, lg) := loadTenant bs
      loadGo rest (alistInsert g es st) (logs ++ lg)

/-- Model of `load_data()`. -/
def load_data : RawFile → LoadResult
  | .absent => ⟨[], [], []⟩
  | .corrupt => ⟨[], [save_data []], []⟩
  | .parsed d => loadGo d [] []

/-- A record exactly as the inner `try` of `load_data` keeps it in
memory (lines 54-59 of `src/bot.py`): both timestamps parsed by
`fromisoformat`, the channel value copied untyped — `"channel":
d["channel"]` raises only when the key is missing and otherwise loads
whatever JSON value is there — and the flag from
`d.get("prealert_sent", False)`. -/
structure LRec where
  /-- the parsed `spawn` timestamp. -/
  spawn : DT
  /-- the parsed `kill` timestamp. -/
  kill : DT
  /-- the persisted channel value, copied untyped. -/
  channel : JVal
  /-- the `prealert_sent` flag, defaulted to `False` when absent. -/
  prealert_sent : Bool
deriving DecidableEq

/-- The body of the inner `try` of `load_data`: a missing `spawn`,
`kill` or `channel` key raises `KeyError`; a `spawn` or `kill` value
`fromisoformat` rejects (any non-string raises `TypeError`, a bad
string raises `ValueError`) raises; any raise is caught per record.  A
missing `prealert_sent` is defaulted to `False` by `d.get`, not an
error, and the channel value is loaded whatever its type. -/
def parseRecL (d : JRec) : Option LRec :=
  match alookup "spawn" d, alookup "kill" d, alookup "channel" d with
  | some (.jstr s1), some (.jstr s2), some cv =>
    (match fromiso s1, fromiso s2 with
     | some sp, some ki =>
       some ⟨sp, ki, cv, ((alookup "prealert_sent" d).map jTruthy).getD false⟩
     | _, _ => none)
  | _, _, _ => none

/-- Per-tenant loop of `load_data` over the untyped-channel records:
records whose parse raises are skipped and their names logged, the
others are kept in order. -/
def loadTenantL : List (String × JRec) → List (String × LRec) × List String
  | [] => ([], [])
  | (b, jr) :: rest =>
    let (es, logs) := loadTenantL rest
    match parseRecL jr with
    | some r => ((b, r) :: es, logs)
    | none => (es, b :: logs)

/-- One full iteration of the `while` loop of `alarm_loop` (minus the
sleep): compute the truncated `now`, pass over the store, and if any
record changed, persist once.  An uncaught send exception propagates
(`.error`), aborting the iteration — and with it the whole
`alarm_loop` task — without saving. -/
def alarmTick (res : Int → Bool) (ok : SendOracle) (now : DT) (s : Store) :
    Except (Store × List Alert) (Store × List Alert × List Doc) :=
  match tickStore res ok (truncMin now) s with
  | .error e => .error e
  | .ok (s', as, ch) => .ok (s', as, if ch then [save_data s'] else [])

/-- Surviving entries of one tenant after a tick in which every send
succeeds (the `allOk` image of `tickEntries`). -/
def entriesStep (res : Int → Bool) (nowT : DT) (g : Int) : Entries → Entries
  | [] => []
  | (b, r) :: rest =>
    consOpt b (tickRecOk res nowT g b r).rem (entriesStep res nowT g rest)

/-- Alerts sent for one tenant during a tick in which every send
succeeds. -/
def entriesAlerts (res : Int → Bool) (nowT : DT) (g : Int) : Entries → List Alert
  | [] => []
  | (b, r) :: rest =>
    (tickRecOk res nowT g b r).alerts ++ entriesAlerts res nowT g rest

/-- The per-tenant `changed` flag of a tick in which every send
succeeds. -/
def entriesChanged (res : Int → Bool) (nowT : DT) (g : Int) : Entries → Bool
  | [] => false
  | (b, r) :: rest =>
    (tickRecOk res nowT g b r).changed || entriesChanged res nowT g rest

/-- The store after a tick in which every send succeeds. -/
def storeStep (res : Int → Bool) (nowT : DT) (s : Store) : Store :=
  s.map fun p => (p.1, entriesStep res nowT p.1 p.2)

/-- All alerts of a tick in which every send succeeds. -/
def storeAlerts (res : Int → Bool) (nowT : DT) : Store → List Alert
  | [] => []
  | (g, es) :: rest => entriesAlerts res nowT g es ++ storeAlerts res nowT rest

/-- The `changed` flag of a tick in which every send succeeds. -/
def storeChanged (res : Int → Bool) (nowT : DT) : Store → Bool
  | [] => false
  | (g, es) :: rest => entriesChanged res nowT g es || storeChanged res nowT rest

/-- Number of alerts in `as` sent for record `(g, b)` with kind `k`. -/
def alertsFor (g : Int) (b : String) (k : AlertKind) (as : List Alert) : Nat :=
  as.countP fun a => decide (a.gid = g ∧ a.boss = b ∧ a.kind = k)

/-- The dict-shape invariant of `SCHEDULES`: tenant keys are distinct
and each tenant's boss names are distinct (Python dicts cannot hold
duplicate keys). -/
def storeKeysOk (s : Store) : Prop :=
  (s.map Prod.fst).Nodup ∧ ∀ p ∈ s, (p.2.map Prod.fst).Nodup

instance (s : Store) : Decidable (storeKeysOk s) := by
  unfold storeKeysOk; infer_instance

/-! ## Calendar lemmas -/

theorem monthLen_pos (leap : Bool) (m : Nat) (h1 : 1 ≤ m) (h2 : m ≤ 12) :
    1 ≤ monthLen leap m := by
  interval_cases m <;> cases leap <;> simp [monthLen]

theorem daysBeforeMonth_succ (leap : Bool) (m : Nat) (h1 : 1 ≤ m) (h2 : m < 12) :
    daysBeforeMonth leap (m + 1) = daysBeforeMonth leap m + monthLen leap m := by
  interval_cases m <;> cases leap <;> rfl

set_option maxHeartbeats 2000000 in
theorem daysBeforeYear_succ_leap (y : Nat) (h : 1 ≤ y)
    (hL : isLeapB y = true) : daysBeforeYear (y + 1) = daysBeforeYear y + 366 := by
  simp only [isLeapB, Bool.or_eq_true, Bool.and_eq_true, beq_iff_eq,
    bne_iff_ne, ne_eq] at hL
  unfold daysBeforeYear
  omega

set_option maxHeartbeats 2000000 in
theorem daysBeforeYear_succ_nonleap (y : Nat) (h : 1 ≤ y)
    (hL : isLeapB y = false) : daysBeforeYear (y + 1) = daysBeforeYear y + 365 := by
  have hL' : ¬ isLeapB y = true := by simp [hL]
  simp only [isLeapB, Bool.or_eq_true, Bool.and_eq_true, beq_iff_eq,
    bne_iff_ne, ne_eq] at hL'
  push_neg at hL'
  unfold daysBeforeYear
  omega

theorem fields_nextDay {t : DT} (h : t.Fields) : (nextDay t).Fields := by
  obtain ⟨hy, hm1, hm2, hd1, hd2, hh, hmin, hs, hus⟩ := h
  unfold nextDay
  split_ifs with h1 h2 <;> dsimp only [DT.Fields] <;>
    refine ⟨by omega, by omega, by omega, by omega, ?_, by omega, by omega,
      by omega, by omega⟩
  · exact h1
  · exact monthLen_pos _ _ (by omega) h2
  · exact monthLen_pos _ _ (le_refl 1) (by omega)

theorem toDays_nextDay {t : DT} (h : t.Fields) :
    (nextDay t).toDays = t.toDays + 1 := by
  obtain ⟨hy, hm1, hm2, hd1, hd2, hh, hmin, hs, hus⟩ := h
  have hdim : daysInMonth t.year t.month = monthLen (isLeapB t.year) t.month := rfl
  unfold nextDay
  split_ifs with h1 h2 <;> dsimp only [DT.toDays]
  · omega
  · rw [daysBeforeMonth_succ (isLeapB t.year) t.month hm1 h2]
    omega
  · have hm12 : t.month = 12 := by omega
    have h31 : daysInMonth t.year t.month = 31 := by rw [hm12]; rfl
    have hdb1 : daysBeforeMonth (isLeapB (t.year + 1)) 1 = 0 := rfl
    rw [hm12, hdb1]
    cases hl : isLeapB t.year
    · have d12 : daysBeforeMonth false 12 = 334 := rfl
      rw [daysBeforeYear_succ_nonleap t.year hy hl, d12]
      omega
    · have d12 : daysBeforeMonth true 12 = 335 := rfl
      rw [daysBeforeYear_succ_leap t.year hy hl, d12]
      omega

theorem toDays_addDays {t : DT} (h : t.Fields) (n : Nat) :
    (addDays t n).toDays = t.toDays + n ∧ (addDays t n).Fields := by
  induction n generalizing t with
  | zero => exact ⟨rfl, h⟩
  | succ n ih =>
    have hnd := fields_nextDay h
    obtain ⟨h1, h2⟩ := ih hnd
    refine ⟨?_, h2⟩
    simp only [addDays, h1, toDays_nextDay h]
    omega

theorem todUs_nextDay (t : DT) : (nextDay t).todUs = t.todUs := by
  unfold nextDay
  split_ifs <;> rfl

theorem todUs_addDays (t : DT) (n : Nat) : (addDays t n).todUs = t.todUs := by
  induction n generalizing t with
  | zero => rfl
  | succ n ih => simp only [addDays, ih, todUs_nextDay]

theorem fields_replaceHM {t : DT} (h : t.Fields) {hh mm : Nat}
    (hhh : hh ≤ 23) (hmm : mm ≤ 59) : (replaceHM t hh mm).Fields := by
  obtain ⟨hy, hm1, hm2, hd1, hd2, _, _, _, _⟩ := h
  unfold replaceHM
  dsimp only [DT.Fields]
  exact ⟨hy, hm1, hm2, hd1, hd2, hhh, hmm, by omega, by omega⟩

theorem toMicros_addHours {t : DT} (h : t.Fields) (k : Nat) :
    (addHours t k).toMicros = t.toMicros + k * usPerHour := by
  unfold addHours
  have hf : (DT.mk t.year t.month t.day ((t.hour + k) % 24) t.minute t.second t.micro).Fields := by
    obtain ⟨hy, hm1, hm2, hd1, hd2, hh, hmin, hs, hus⟩ := h
    dsimp only [DT.Fields]
    exact ⟨hy, hm1, hm2, hd1, hd2, by omega, hmin, hs, hus⟩
  obtain ⟨hdays, _⟩ := toDays_addDays hf ((t.hour + k) / 24)
  simp only [DT.toMicros, hdays, todUs_addDays]
  have : (DT.mk t.year t.month t.day ((t.hour + k) % 24) t.minute t.second t.micro).toDays = t.toDays := rfl
  rw [this]
  simp only [DT.todUs, usPerDay, usPerHour, usPerMin, usPerSec]
  omega

/-! ## Tick lemmas -/

theorem ltB_false_of_leB {a b : DT} (h : DT.leB a b = true) :
    DT.ltB b a = false := by
  simp only [DT.leB, DT.ltB, decide_eq_true_eq, decide_eq_false_iff_not, not_lt] at h ⊢
  omega

theorem leB_false_of_ltB {a b : DT} (h : DT.ltB a b = true) :
    DT.leB b a = false := by
  simp only [DT.leB, DT.ltB, decide_eq_true_eq, decide_eq_false_iff_not, not_le] at h ⊢
  omega

theorem tickRecE_allOk (res : Int → Bool) (nowT : DT) (g : Int) (b : String)
    (r : Rec) : tickRecE res allOk nowT g b r = .ok (tickRecOk res nowT g b r) := by
  unfold tickRecE tickRecOk allOk
  split_ifs <;> simp_all <;> split_ifs <;> simp_all

theorem tickEntries_allOk (res : Int → Bool) (nowT : DT) (g : Int)
    (es : Entries) :
    tickEntries res allOk nowT g es =
      .ok (entriesStep res nowT g es, entriesAlerts res nowT g es,
        entriesChanged res nowT g es) := by
  induction es with
  | nil => rfl
  | cons p rest ih =>
    obtain ⟨b, r⟩ := p
    simp only [tickEntries, tickRecE_allOk, ih, entriesStep, entriesAlerts,
      entriesChanged]

theorem tickStore_allOk (res : Int → Bool) (nowT : DT) (s : Store) :
    tickStore res allOk nowT s =
      .ok (storeStep res nowT s, storeAlerts res nowT s,
        storeChanged res nowT s) := by
  induction s with
  | nil => rfl
  | cons p rest ih =>
    obtain ⟨g, es⟩ := p
    simp only [tickStore, tickEntries_allOk, ih, storeStep, storeAlerts,
      storeChanged, List.map]

theorem alarmTick_allOk (res : Int → Bool) (now : DT) (s : Store) :
    alarmTick res allOk now s =
      .ok (storeStep res (truncMin now) s, storeAlerts res (truncMin now) s,
        if storeChanged res (truncMin now) s = true then
          [save_data (storeStep res (truncMin now) s)]
        else []) := by
  simp only [alarmTick, tickStore_allOk]

theorem tickRecOk_final (res : Int → Bool) (nowT : DT) (g : Int) (b : String)
    (r : Rec) (hres : res r.channel = true)
    (hdue : DT.leB (truncMin r.spawn) nowT = true) :
    tickRecOk res nowT g b r = ⟨none, [⟨g, b, .fin, r.channel⟩], true⟩ := by
  have hlt : DT.ltB nowT (truncMin r.spawn) = false := ltB_false_of_leB hdue
  unfold tickRecOk
  simp [hres, hlt, hdue]

theorem tickRecOk_pre (res : Int → Bool) (nowT : DT) (g : Int) (b : String)
    (r : Rec) (hres : res r.channel = true) (hsent : r.prealert_sent = false)
    (hpre : DT.leB (subMinutes (truncMin r.spawn) PRE_ALERT_MIN) nowT = true)
    (hlt : DT.ltB nowT (truncMin r.spawn) = true) :
    tickRecOk res nowT g b r =
      ⟨some { r with prealert_sent := true }, [⟨g, b, .pre, r.channel⟩], true⟩ := by
  have hfin : DT.leB (truncMin r.spawn) nowT = false := leB_false_of_ltB hlt
  unfold tickRecOk
  simp [hres, hsent, hpre, hlt, hfin]

theorem tickRecOk_inert (res : Int → Bool) (nowT : DT) (g : Int) (b : String)
    (r : Rec) (hsent : r.prealert_sent = true)
    (hlt : DT.ltB nowT (truncMin r.spawn) = true) :
    tickRecOk res nowT g b r = ⟨some r, [], false⟩ := by
  have hfin : DT.leB (truncMin r.spawn) nowT = false := leB_false_of_ltB hlt
  unfold tickRecOk
  cases hres : res r.channel <;> simp [hres, hsent, hfin]

theorem alookup_storeStep (res : Int → Bool) (nowT : DT) (g : Int) (s : Store) :
    alookup g (storeStep res nowT s) =
      (alookup g s).map (entriesStep res nowT g) := by
  induction s with
  | nil => rfl
  | cons p rest ih =>
    obtain ⟨g', es⟩ := p
    by_cases h : g' = g
    · subst h
      simp [storeStep, alookup]
    · simp only [storeStep, List.map, alookup, if_neg h] at ih ⊢
      exact ih

theorem alookup_entriesStep_not_mem (res : Int → Bool) (nowT : DT) (g : Int)
    {b : String} {es : Entries} (h : ¬ b ∈ es.map Prod.fst) :
    alookup b (entriesStep res nowT g es) = none := by
  induction es with
  | nil => rfl
  | cons p rest ih =>
    obtain ⟨b', r⟩ := p
    simp only [List.map, List.mem_cons, not_or] at h
    obtain ⟨hne, hrest⟩ := h
    have hne' : ¬ b' = b := fun hh => hne hh.symm
    simp only [entriesStep, consOpt]
    cases (tickRecOk res nowT g b' r).rem with
    | none => exact ih hrest
    | some r'' =>
      simp only [alookup, if_neg hne']
      exact ih hrest

theorem alookup_entriesStep (res : Int → Bool) (nowT : DT) (g : Int)
    {b : String} {es : Entries} {r : Rec}
    (hnd : (es.map Prod.fst).Nodup) (hb : alookup b es = some r) :
    alookup b (entriesStep res nowT g es) = (tickRecOk res nowT g b r).rem := by
  induction es with
  | nil => cases hb
  | cons p rest ih =>
    obtain ⟨b', r'⟩ := p
    simp only [List.map, List.nodup_cons] at hnd
    obtain ⟨hnotin, hndrest⟩ := hnd
    by_cases h : b' = b
    · subst h
      simp only [alookup, if_pos rfl] at hb
      injection hb with hb
      subst hb
      simp only [entriesStep, consOpt]
      cases hrem : (tickRecOk res nowT g b' r').rem with
      | none => exact alookup_entriesStep_not_mem res nowT g hnotin
      | some r'' => simp [alookup]
    · simp only [alookup, if_neg h] at hb
      simp only [entriesStep, consOpt]
      cases (tickRecOk res nowT g b' r').rem with
      | none => exact ih hndrest hb
      | some r'' =>
        simp only [alookup, if_neg h]
        exact ih hndrest hb

theorem tickRecOk_alerts_tags (res : Int → Bool) (nowT : DT) (g : Int)
    (b : String) (r : Rec) :
    ∀ a ∈ (tickRecOk res nowT g b r).alerts, a.gid = g ∧ a.boss = b := by
  intro a ha
  unfold tickRecOk at ha
  dsimp only at ha
  split_ifs at ha <;> simp_all <;> rcases ha with rfl | rfl <;> simp

theorem alertsFor_append (g : Int) (b : String) (k : AlertKind)
    (as bs : List Alert) :
    alertsFor g b k (as ++ bs) = alertsFor g b k as + alertsFor g b k bs :=
  List.countP_append _ _ _

theorem alertsFor_rec_other (g : Int) (b : String) (k : AlertKind) (g' : Int)
    (b' : String) (r : Rec) (res : Int → Bool) (nowT : DT)
    (h : ¬ (g' = g ∧ b' = b)) :
    alertsFor g b k (tickRecOk res nowT g' b' r).alerts = 0 := by
  rw [alertsFor, List.countP_eq_zero]
  intro a ha
  obtain ⟨h1, h2⟩ := tickRecOk_alerts_tags res nowT g' b' r a ha
  simp only [decide_eq_true_eq]
  intro hcon
  obtain ⟨hg, hb, -⟩ := hcon
  exact h ⟨by omega, by rw [← h2]; exact hb⟩

theorem alertsFor_entries_zero (res : Int → Bool) (nowT : DT) (g : Int)
    (b : String) (k : AlertKind) {es : Entries}
    (h : ¬ b ∈ es.map Prod.fst) :
    alertsFor g b k (entriesAlerts res nowT g es) = 0 := by
  induction es with
  | nil => rfl
  | cons p rest ih =>
    obtain ⟨b', r⟩ := p
    simp only [List.map, List.mem_cons, not_or] at h
    obtain ⟨hne, hrest⟩ := h
    simp only [entriesAlerts, alertsFor_append, ih hrest,
      alertsFor_rec_other g b k g b' r res nowT (fun hc => hne hc.2.symm)]

theorem alertsFor_entries (res : Int → Bool) (nowT : DT) (g : Int)
    (b : String) (k : AlertKind) {es : Entries} {r : Rec}
    (hnd : (es.map Prod.fst).Nodup) (hb : alookup b es = some r) :
    alertsFor g b k (entriesAlerts res nowT g es) =
      alertsFor g b k (tickRecOk res nowT g b r).alerts := by
  induction es with
  | nil => cases hb
  | cons p rest ih =>
    obtain ⟨b', r'⟩ := p
    simp only [List.map, List.nodup_cons] at hnd
    obtain ⟨hnotin, hndrest⟩ := hnd
    by_cases h : b' = b
    · subst h
      simp only [alookup, if_pos rfl] at hb
      injection hb with hb
      subst hb
      simp only [entriesAlerts, alertsFor_append,
        alertsFor_entries_zero res nowT g b' k hnotin]
      omega
    · simp only [alookup, if_neg h] at hb
      simp only [entriesAlerts, alertsFor_append, ih hndrest hb,
        alertsFor_rec_other g b k g b' r' res nowT (fun hc => h hc.2)]
      omega

theorem entriesAlerts_gid (res : Int → Bool) (nowT : DT) (g : Int)
    (es : Entries) : ∀ a ∈ entriesAlerts res nowT g es, a.gid = g := by
  induction es with
  | nil => intro a ha; cases ha
  | cons p rest ih =>
    obtain ⟨b', r⟩ := p
    intro a ha
    simp only [entriesAlerts, List.mem_append] at ha
    rcases ha with ha | ha
    · exact (tickRecOk_alerts_tags res nowT g b' r a ha).1
    · exact ih a ha

theorem alertsFor_store_zero (res : Int → Bool) (nowT : DT) (g : Int)
    (b : String) (k : AlertKind) {s : Store}
    (h : ¬ g ∈ s.map Prod.fst) :
    alertsFor g b k (storeAlerts res nowT s) = 0 := by
  induction s with
  | nil => rfl
  | cons p rest ih =>
    obtain ⟨g', es⟩ := p
    simp only [List.map, List.mem_cons, not_or] at h
    obtain ⟨hne, hrest⟩ := h
    simp only [storeAlerts, alertsFor_append, ih hrest]
    have : alertsFor g b k (entriesAlerts res nowT g' es) = 0 := by
      rw [alertsFor, List.countP_eq_zero]
      intro a ha
      have hgid := entriesAlerts_gid res nowT g' es a ha
      simp only [decide_eq_true_eq]
      intro hcon
      obtain ⟨hg, -, -⟩ := hcon
      exact hne (by omega : g = g')
    omega

theorem alertsFor_store (res : Int → Bool) (nowT : DT) (g : Int) (b : String)
    (k : AlertKind) :
    ∀ {s : Store} {es : Entries}, (s.map Prod.fst).Nodup →
      alookup g s = some es →
      alertsFor g b k (storeAlerts res nowT s) =
        alertsFor g b k (entriesAlerts res nowT g es) := by
  intro s
  induction s with
  | nil => intro es _ hg; cases hg
  | cons p rest ih =>
    intro es hknd hg
    obtain ⟨g', es'⟩ := p
    simp only [List.map, List.nodup_cons] at hknd
    obtain ⟨hnotin, hndrest⟩ := hknd
    by_cases h : g' = g
    · subst h
      simp only [alookup, if_pos rfl] at hg
      injection hg with hg
      subst hg
      simp only [storeAlerts, alertsFor_append,
        alertsFor_store_zero res nowT g' b k hnotin]
      omega
    · simp only [alookup, if_neg h] at hg
      simp only [storeAlerts, alertsFor_append, ih hndrest hg]
      have hz : alertsFor g b k (entriesAlerts res nowT g' es') = 0 := by
        rw [alertsFor, List.countP_eq_zero]
        intro a ha
        have hgid := entriesAlerts_gid res nowT g' es' a ha
        simp only [decide_eq_true_eq]
        intro hcon
        obtain ⟨hg2, -, -⟩ := hcon
        exact h (by omega : g' = g)
      omega

theorem alookup_mem {κ ν : Type} [DecidableEq κ] {k : κ} {v : ν} :
    ∀ {l : List (κ × ν)}, alookup k l = some v → (k, v) ∈ l := by
  intro l
  induction l with
  | nil => intro h; cases h
  | cons p rest ih =>
    intro h
    obtain ⟨k', v'⟩ := p
    by_cases hk : k' = k
    · subst hk
      simp [alookup] at h
      subst h
      exact List.mem_cons_self _ _
    · simp only [alookup, if_neg hk] at h
      exact List.mem_cons_of_mem _ (ih h)

theorem storeStep_keys (res : Int → Bool) (nowT : DT) (s : Store) :
    (storeStep res nowT s).map Prod.fst = s.map Prod.fst := by
  induction s with
  | nil => rfl
  | cons p rest ih =>
    simp only [storeStep, List.map] at ih ⊢
    rw [ih]

theorem entriesStep_keys_sublist (res : Int → Bool) (nowT : DT) (g : Int)
    (es : Entries) :
    ((entriesStep res nowT g es).map Prod.fst).Sublist (es.map Prod.fst) := by
  induction es with
  | nil => exact List.Sublist.refl _
  | cons p rest ih =>
    obtain ⟨b, r⟩ := p
    simp only [entriesStep, consOpt]
    cases (tickRecOk res nowT g b r).rem with
    | none => exact List.Sublist.cons _ ih
    | some r' => exact List.Sublist.cons₂ _ ih

theorem storeKeysOk_storeStep (res : Int → Bool) (nowT : DT) {s : Store}
    (hk : storeKeysOk s) : storeKeysOk (storeStep res nowT s) := by
  constructor
  · rw [storeStep_keys]
    exact hk.1
  · intro p hp
    simp only [storeStep, List.mem_map] at hp
    obtain ⟨q, hq, rfl⟩ := hp
    exact ((entriesStep_keys_sublist res nowT q.1 q.2).nodup (hk.2 q hq))

/-! ## Store lemmas -/

theorem alookup_alistInsert_ne {κ ν : Type} [DecidableEq κ] {k k' : κ}
    (v : ν) (hne : k' ≠ k) :
    ∀ l : List (κ × ν), alookup k (alistInsert k' v l) = alookup k l := by
  intro l
  induction l with
  | nil => simp [alistInsert, alookup, if_neg hne]
  | cons p rest ih =>
    obtain ⟨a, w⟩ := p
    by_cases ha : a = k'
    · subst ha
      simp only [alistInsert, if_pos rfl, alookup, if_neg hne]
    · simp only [alistInsert, if_neg ha, alookup]
      by_cases hak : a = k
      · simp [if_pos hak]
      · simp only [if_neg hak, ih]

theorem alookup_append_single_ne {κ ν : Type} [DecidableEq κ] {k k' : κ}
    (x : ν) (hne : k' ≠ k) :
    ∀ l : List (κ × ν), alookup k (l ++ [(k', x)]) = alookup k l := by
  intro l
  induction l with
  | nil => simp [alookup, if_neg hne]
  | cons p rest ih =>
    obtain ⟨a, w⟩ := p
    by_cases hak : a = k
    · simp [alookup, if_pos hak]
    · simp only [List.cons_append, alookup, if_neg hak]
      simpa using ih

theorem alookup_storeDelete_ne {A B : Int} (hne : A ≠ B) (b : String)
    (s : Store) : alookup B (storeDelete A b s) = alookup B s := by
  induction s with
  | nil => rfl
  | cons p rest ih =>
    obtain ⟨g, es⟩ := p
    by_cases hgA : g = A
    · subst hgA
      simp only [storeDelete, List.map, if_pos rfl] at ih ⊢
      simp only [alookup, if_neg hne, ih]
    · simp only [storeDelete, List.map, if_neg hgA] at ih ⊢
      by_cases hgB : g = B
      · simp [alookup, if_pos hgB]
      · simp only [alookup, if_neg hgB, ih]

theorem alookup_storeInsert_ne {A B : Int} (hne : A ≠ B) (b : String)
    (r : Rec) (s : Store) : alookup B (storeInsert A b r s) = alookup B s := by
  unfold storeInsert
  cases h : alookup A s with
  | some es => exact alookup_alistInsert_ne _ hne s
  | none => exact alookup_append_single_ne _ hne s

theorem on_message_store (s : Store) (now : DT) (ctx : MsgCtx) :
    (on_message s now ctx).1 = s ∨
    (∃ b, (on_message s now ctx).1 = storeDelete ctx.guild b s) ∨
    (∃ b r, (on_message s now ctx).1 = storeInsert ctx.guild b r s) := by
  unfold on_message register_boss
  dsimp only
  repeat' split
  all_goals
    first
      | exact Or.inl rfl
      | exact Or.inr (Or.inl ⟨_, rfl⟩)
      | exact Or.inr (Or.inr ⟨_, _, rfl⟩)

/-! ## Time-parser lemmas -/

theorem takeWhile_split {p : Char → Bool} :
    ∀ {w r : List Char}, (∀ c ∈ w, p c = true) →
      (∀ x, r.head? = some x → p x = false) →
      (w ++ r).takeWhile p = w ∧ (w ++ r).dropWhile p = r := by
  intro w
  induction w with
  | nil =>
    intro r _ hr
    cases r with
    | nil => exact ⟨rfl, rfl⟩
    | cons x t =>
      have hx : p x = false := hr x rfl
      simp [List.takeWhile, List.dropWhile, hx]
  | cons c w ih =>
    intro r hw hr
    have hc : p c = true := hw c (List.mem_cons_self _ _)
    have hw' : ∀ c' ∈ w, p c' = true := fun c' hc' => hw c' (List.mem_cons_of_mem _ hc')
    obtain ⟨h1, h2⟩ := ih hw' hr
    simp [List.takeWhile, List.dropWhile, hc, h1, h2]

theorem digit_not_ws {c : Char} (h : isDigitB c = true) : isWsB c = false := by
  simp only [isDigitB, Bool.and_eq_true, decide_eq_true_eq] at h
  simp only [isWsB, Bool.or_eq_false_iff, decide_eq_false_iff_not]
  omega

theorem ws_not_digit {c : Char} (h : isWsB c = true) : isDigitB c = false := by
  simp only [isWsB, Bool.or_eq_true, decide_eq_true_eq] at h
  simp only [isDigitB, Bool.and_eq_false_iff, decide_eq_false_iff_not]
  omega

theorem parse_time_shape {s : String} (h : (parse_time s).isSome = true) :
    SpecTimeShape s := by
  unfold parse_time at h
  dsimp only at h
  split_ifs at h with hlen
  · simp at h
  · split at h
    case _ cs2 heq =>
      split_ifs at h with hd2len hws hrange
      · simp at h
      · -- the accepting branch
        refine ⟨s.data.takeWhile isWsB,
          (s.data.dropWhile isWsB).takeWhile isDigitB,
          cs2.takeWhile isDigitB, cs2.dropWhile isDigitB, ?_, ?_, ?_, ?_, ?_,
          ?_, ?_, ?_, ?_, ?_⟩
        · rw [List.append_assoc, List.takeWhile_append_dropWhile, ← heq,
            List.takeWhile_append_dropWhile, List.takeWhile_append_dropWhile]
        · intro c hc; exact List.mem_takeWhile_imp hc
        · intro c hc
          exact List.all_eq_true.mp hws c hc
        · intro c hc; exact List.mem_takeWhile_imp hc
        · intro c hc; exact List.mem_takeWhile_imp hc
        · simp only [Bool.or_eq_true, decide_eq_true_eq, not_or] at hlen
          omega
        · simp only [Bool.or_eq_true, decide_eq_true_eq, not_or] at hlen
          omega
        · omega
        · simp only [Bool.and_eq_true, decide_eq_true_eq] at hrange
          exact hrange.1
        · simp only [Bool.and_eq_true, decide_eq_true_eq] at hrange
          exact hrange.2
      · simp at h
      · simp at h
    case _ hne => simp at h

theorem shape_parse_time {s : String} (hs : SpecTimeShape s) :
    (parse_time s).isSome = true := by
  obtain ⟨w1, d1, d2, w2, hdec, hw1, hw2, hd1, hd2, hl1, hl2, hl3, hv1, hv2⟩ := hs
  have hdig : isDigitB ':' = false := by decide
  have step1 : (s.data.takeWhile isWsB = w1) ∧
      s.data.dropWhile isWsB = d1 ++ ':' :: (d2 ++ w2) := by
    rw [hdec, List.append_assoc]
    refine takeWhile_split hw1 ?_
    intro x hx
    cases d1 with
    | nil => simp at hl1
    | cons a t =>
      simp only [List.cons_append, List.head?] at hx
      injection hx with hx
      subst hx
      exact digit_not_ws (hd1 a (List.mem_cons_self _ _))
  have step2 : ((d1 ++ ':' :: (d2 ++ w2)).takeWhile isDigitB = d1) ∧
      (d1 ++ ':' :: (d2 ++ w2)).dropWhile isDigitB = ':' :: (d2 ++ w2) := by
    refine takeWhile_split hd1 ?_
    intro x hx
    simp only [List.head?] at hx
    injection hx with hx
    subst hx
    exact hdig
  have step3 : ((d2 ++ w2).takeWhile isDigitB = d2) ∧
      (d2 ++ w2).dropWhile isDigitB = w2 := by
    refine takeWhile_split hd2 ?_
    intro x hx
    cases w2 with
    | nil => simp at hx
    | cons a t =>
      simp only [List.head?] at hx
      injection hx with hx
      subst hx
      exact ws_not_digit (hw2 a (List.mem_cons_self _ _))
  unfold parse_time
  dsimp only
  rw [step1.2, step2.1, step2.2]
  rw [if_neg (by
    simp only [Bool.or_eq_true, decide_eq_true_eq, not_or]
    omega)]
  split
  case _ cs2' heq2 =>
    injection heq2 with _ h2
    subst h2
    rw [step3.1, step3.2]
    rw [if_neg (by simp [hl3])]
    rw [if_pos (List.all_eq_true.mpr hw2)]
    rw [if_pos (by simp [hv1, hv2])]
    rfl
  case _ hnm =>
    exact absurd rfl (hnm (d2 ++ w2))

/-! ## Persistence lemmas -/

theorem chVal_digitChar {d : Nat} (h : d < 10) : chVal (digitChar d) = d := by
  interval_cases d <;> rfl

theorem isDigitB_digitChar {d : Nat} (h : d < 10) :
    isDigitB (digitChar d) = true := by
  interval_cases d <;> rfl

theorem foldl_digitChars_rev (L : List Nat) (hL : ∀ d ∈ L, d < 10) :
    ∀ a : Nat, (L.reverse.map digitChar).foldl (fun acc c => acc * 10 + chVal c) a =
      a * 10 ^ L.length + Nat.ofDigits 10 L := by
  induction L with
  | nil => intro a; simp
  | cons d L ih =>
    intro a
    have hd : d < 10 := hL d (List.mem_cons_self _ _)
    have hL' : ∀ x ∈ L, x < 10 := fun x hx => hL x (List.mem_cons_of_mem _ hx)
    rw [List.reverse_cons, List.map_append, List.foldl_append]
    simp only [List.map, List.foldl]
    rw [ih hL' a, chVal_digitChar hd, Nat.ofDigits_cons]
    rw [List.length_cons, pow_succ]
    ring

theorem foldl_digitChars (n : Nat) :
    (digitChars n).foldl (fun acc c => acc * 10 + chVal c) 0 = n := by
  unfold digitChars
  rw [foldl_digitChars_rev (Nat.digits 10 n)
    (fun d hd => Nat.digits_lt_base (by norm_num) hd) 0]
  rw [Nat.ofDigits_digits]
  ring

theorem digitChars_all (n : Nat) : ∀ c ∈ digitChars n, isDigitB c = true := by
  intro c hc
  unfold digitChars at hc
  obtain ⟨d, hd, rfl⟩ := List.mem_map.mp hc
  exact isDigitB_digitChar
    (Nat.digits_lt_base (by norm_num) (List.mem_reverse.mp hd))

theorem digits_length_le {n k : Nat} (h : n < 10 ^ k) :
    (Nat.digits 10 n).length ≤ k := by
  rcases Nat.eq_zero_or_pos n with rfl | hn
  · simp
  by_contra hlt
  push_neg at hlt
  have h1 : 10 ^ (k + 1) ≤ 10 ^ (Nat.digits 10 n).length :=
    Nat.pow_le_pow_right (by norm_num) hlt
  have h2 : 10 ^ (Nat.digits 10 n).length ≤ 10 * n :=
    Nat.base_pow_length_digits_le 10 n (by norm_num) (by omega)
  have h3 : 10 * 10 ^ k ≤ 10 * n := by
    calc 10 * 10 ^ k = 10 ^ (k + 1) := by ring
    _ ≤ 10 ^ (Nat.digits 10 n).length := h1
    _ ≤ 10 * n := h2
  omega

theorem padDigits_length {k n : Nat} (h : n < 10 ^ k) :
    (padDigits k n).length = k := by
  unfold padDigits
  rw [List.length_append, List.length_replicate]
  have : (digitChars n).length ≤ k := by
    unfold digitChars
    rw [List.length_map, List.length_reverse]
    exact digits_length_le h
  omega

theorem padDigits_all (k n : Nat) : ∀ c ∈ padDigits k n, isDigitB c = true := by
  intro c hc
  unfold padDigits at hc
  rcases List.mem_append.mp hc with hc | hc
  · rw [List.eq_of_mem_replicate hc]
    rfl
  · exact digitChars_all n c hc

theorem foldl_zeros (j : Nat) :
    (List.replicate j '0').foldl (fun acc c => acc * 10 + chVal c) 0 = 0 := by
  induction j with
  | zero => rfl
  | succ j ih => simpa [List.replicate, List.foldl] using ih

theorem foldl_padDigits (k n : Nat) :
    (padDigits k n).foldl (fun acc c => acc * 10 + chVal c) 0 = n := by
  unfold padDigits
  rw [List.foldl_append, foldl_zeros, foldl_digitChars]

theorem readDigitsAux_exact :
    ∀ (ds : List Char) (acc : Nat) (rest : List Char),
      (∀ c ∈ ds, isDigitB c = true) →
      readDigitsAux ds.length acc (ds ++ rest) =
        some (ds.foldl (fun a c => a * 10 + chVal c) acc, rest) := by
  intro ds
  induction ds with
  | nil => intro acc rest _; rfl
  | cons c ds ih =>
    intro acc rest hall
    have hc : isDigitB c = true := hall c (List.mem_cons_self _ _)
    simp only [List.length_cons, List.cons_append, readDigitsAux, hc, if_true,
      List.foldl]
    exact ih _ rest (fun x hx => hall x (List.mem_cons_of_mem _ hx))

theorem readN_padDigits {k n : Nat} {rest : List Char} (h : n < 10 ^ k) :
    readDigitsAux k 0 (padDigits k n ++ rest) = some (n, rest) := by
  have hlen := padDigits_length h
  nth_rewrite 1 [← hlen]
  rw [readDigitsAux_exact (padDigits k n) 0 rest (padDigits_all k n),
    foldl_padDigits]


theorem monthLen_le31 (leap : Bool) (m : Nat) : monthLen leap m ≤ 31 := by
  unfold monthLen
  split <;> first | omega | (split_ifs <;> omega)

theorem fromiso_dtStr {t : DT} (h : t.Valid) : fromiso (dtStr t) = some t := by
  obtain ⟨⟨hy, hm1, hm2, hd1, hd2, hh, hmin, hsec, hus⟩, hy9⟩ := h
  have hml := monthLen_le31 (isLeapB t.year) t.month
  have hy4 : t.year < 10 ^ 4 := by omega
  have hmo2 : t.month < 10 ^ 2 := by
    norm_num
    omega
  have hd2' : t.day < 10 ^ 2 := by
    simp only [daysInMonth] at hd2
    norm_num
    omega
  have hh2 : t.hour < 10 ^ 2 := by norm_num; omega
  have hmi2 : t.minute < 10 ^ 2 := by norm_num; omega
  have hs2 : t.second < 10 ^ 2 := by norm_num; omega
  have hus6 : t.micro < 10 ^ 6 := by norm_num; omega
  unfold fromiso dtStr
  dsimp only
  rw [readN_padDigits hy4]
  simp only [Option.bind_eq_bind, Option.some_bind, expectC, reduceIte]
  rw [readN_padDigits hmo2]
  simp only [Option.bind_eq_bind, Option.some_bind, expectC, reduceIte]
  rw [readN_padDigits hd2']
  simp only [Option.bind_eq_bind, Option.some_bind]
  rw [if_pos (by decide : (decide True || decide (' ' = 'T')) = true)]
  simp only [Option.some_bind]
  rw [readN_padDigits hh2]
  simp only [Option.bind_eq_bind, Option.some_bind, expectC, reduceIte]
  rw [readN_padDigits hmi2]
  simp only [Option.bind_eq_bind, Option.some_bind, expectC, reduceIte, parseSecFrac]
  rw [readN_padDigits hs2]
  by_cases hmz : t.micro = 0
  · simp only [microPart, hmz, reduceIte, List.nil_append]
    show (some ((t.second, 0, ['+', '0', '9', ':', '0', '0']) : Nat × Nat × List Char)).bind _ = some t
    simp only [Option.some_bind]
    rw [if_pos trivial]
    rw [if_pos (show DT.Valid ⟨t.year, t.month, t.day, t.hour, t.minute, t.second, 0⟩ from
      ⟨⟨hy, hm1, hm2, hd1, hd2, hh, hmin, hsec, by dsimp only; omega⟩, hy9⟩)]
    rw [← hmz]
  · simp only [microPart, hmz, reduceIte, List.cons_append]
    rw [readN_padDigits hus6]
    simp only [Option.some_bind]
    rw [if_pos trivial]
    rw [if_pos (show DT.Valid _ from ⟨⟨hy, hm1, hm2, hd1, hd2, hh, hmin, hsec, by omega⟩, hy9⟩)]

theorem natChars_all (n : Nat) : ∀ c ∈ natChars n, isDigitB c = true := by
  intro c hc
  unfold natChars at hc
  split at hc
  · simp only [List.mem_singleton] at hc
    subst hc
    rfl
  · exact digitChars_all n c hc

theorem natChars_ne_nil (n : Nat) : natChars n ≠ [] := by
  unfold natChars
  split
  · simp
  · unfold digitChars
    simp only [ne_eq, List.map_eq_nil_iff, List.reverse_eq_nil_iff]
    rename_i h
    exact Nat.digits_ne_nil_iff_ne_zero.mpr h

theorem listVal_natChars (n : Nat) : listVal (natChars n) = n := by
  unfold natChars
  split
  · subst n
    rfl
  · exact foldl_digitChars n

theorem digitsVal_natChars (n : Nat) : digitsVal? (natChars n) = some n := by
  unfold digitsVal?
  rw [if_neg (by simp only [List.isEmpty_iff]; exact natChars_ne_nil n)]
  rw [if_pos (List.all_eq_true.mpr (natChars_all n))]
  exact congrArg some (listVal_natChars n)

theorem pyInt_pyIntStr (g : Int) : pyInt (pyIntStr g) = some g := by
  unfold pyIntStr
  by_cases hg : g < 0
  · rw [if_pos hg]
    show ((digitsVal? (natChars g.natAbs)).map fun n => -(n : Int)) = some g
    rw [digitsVal_natChars]
    simp only [Option.bind_eq_bind, Option.some_bind, Option.pure_def,
      Option.map_some', Option.some.injEq]
    omega
  · rw [if_neg hg]
    have hnc := natChars_ne_nil g.natAbs
    rcases hc : natChars g.natAbs with _ | ⟨c, cs⟩
    · exact absurd hc hnc
    · have hdig : isDigitB c = true :=
        natChars_all g.natAbs c (by rw [hc]; exact List.mem_cons_self c cs)
      unfold pyInt
      dsimp only
      split
      · rename_i rest heq
        rw [List.cons.injEq] at heq
        rw [heq.1] at hdig
        exact absurd hdig (by decide)
      · rename_i rest heq
        rw [List.cons.injEq] at heq
        rw [heq.1] at hdig
        exact absurd hdig (by decide)
      · rw [← hc, digitsVal_natChars]
        simp only [Option.bind_eq_bind, Option.some_bind, Option.pure_def,
          Option.map_some', Option.some.injEq]
        omega

theorem parseRec_jrecOf (r : Rec) (h1 : r.spawn.Valid) (h2 : r.kill.Valid) :
    parseRec (jrecOf r) = some r := by
  have e1 := fromiso_dtStr h1
  have e2 := fromiso_dtStr h2
  simp only [parseRec, jrecOf, alookup, String.reduceEq, reduceIte, e1, e2,
    jTruthy, Option.map_some', Option.getD_some]

theorem loadTenant_map (es : Entries)
    (h : ∀ p ∈ es, p.2.spawn.Valid ∧ p.2.kill.Valid) :
    loadTenant (es.map fun q => (q.1, jrecOf q.2)) = (es, []) := by
  induction es with
  | nil => rfl
  | cons p rest ih =>
    obtain ⟨b, r⟩ := p
    have hp := h (b, r) (List.mem_cons_self _ _)
    simp only [List.map_cons, loadTenant]
    rw [ih (fun q hq => h q (List.mem_cons_of_mem _ hq))]
    rw [parseRec_jrecOf r hp.1 hp.2]

theorem alistInsert_not_mem {κ ν : Type} [DecidableEq κ] (k : κ) (v : ν)
    (l : List (κ × ν)) (h : ∀ p ∈ l, p.1 ≠ k) :
    alistInsert k v l = l ++ [(k, v)] := by
  induction l with
  | nil => rfl
  | cons p t ih =>
    obtain ⟨k1, v1⟩ := p
    simp only [alistInsert]
    rw [if_neg (h (k1, v1) (List.mem_cons_self _ _))]
    rw [ih (fun q hq => h q (List.mem_cons_of_mem _ hq))]
    rfl

theorem loadGo_save (s : Store) : ∀ (pre : Store) (logs : List String),
    (s.map Prod.fst).Nodup →
    (∀ g ∈ s.map Prod.fst, ∀ p ∈ pre, p.1 ≠ g) →
    (∀ p ∈ s, ∀ q ∈ p.2, q.2.spawn.Valid ∧ q.2.kill.Valid) →
    loadGo (save_data s) pre logs = ⟨pre ++ s, [], logs⟩ := by
  induction s with
  | nil => intro pre logs _ _ _; simp [save_data, loadGo]
  | cons p rest ih =>
    intro pre logs hnd hdisj hval
    obtain ⟨g, es⟩ := p
    rw [show save_data ((g, es) :: rest)
        = (pyIntStr g, es.map fun q => (q.1, jrecOf q.2)) :: save_data rest from rfl]
    simp only [loadGo]
    rw [pyInt_pyIntStr g]
    rw [loadTenant_map es (hval (g, es) (List.mem_cons_self _ _))]
    dsimp only
    rw [alistInsert_not_mem g es pre
      (fun q hq => hdisj g (by simp) q hq)]
    rw [List.append_nil]
    have hnd' : (rest.map Prod.fst).Nodup := by
      simp only [List.map_cons, List.nodup_cons] at hnd
      exact hnd.2
    have hdisj' : ∀ g2 ∈ rest.map Prod.fst, ∀ q ∈ pre ++ [(g, es)], q.1 ≠ g2 := by
      intro g2 hg2 q hq
      rcases List.mem_append.mp hq with hq | hq
      · exact hdisj g2 (List.mem_cons_of_mem _ hg2) q hq
      · simp only [List.mem_singleton] at hq
        subst hq
        simp only [List.map_cons, List.nodup_cons] at hnd
        intro hgg
        have hgg2 : g = g2 := hgg
        rw [← hgg2] at hg2
        exact hnd.1 hg2
    have hval' : ∀ p ∈ rest, ∀ q ∈ p.2, q.2.spawn.Valid ∧ q.2.kill.Valid :=
      fun p hp => hval p (List.mem_cons_of_mem _ hp)
    rw [ih (pre ++ [(g, es)]) logs hnd' hdisj' hval']
    simp

theorem loadGo_saves_nil (d : List (String × List (String × JRec))) :
    ∀ (st : Store) (logs : List String), (∀ p ∈ d, (pyInt p.1).isSome = true) →
    (loadGo d st logs).saves = [] := by
  induction d with
  | nil => intro st logs _; rfl
  | cons p rest ih =>
    intro st logs h
    obtain ⟨gs, bs⟩ := p
    simp only [loadGo]
    cases hg : pyInt gs with
    | none =>
      have hmem := h (gs, bs) (List.mem_cons_self _ _)
      rw [hg] at hmem
      simp at hmem
    | some g =>
      rcases hlt : loadTenant bs with ⟨es, lg⟩
      dsimp only
      exact ih _ _ (fun q hq => h q (List.mem_cons_of_mem _ hq))

theorem loadTenantL_spec (bs : List (String × JRec)) :
    loadTenantL bs = (bs.filterMap fun p => (parseRecL p.2).map fun r => (p.1, r),
      (bs.filter fun p => (parseRecL p.2).isNone).map Prod.fst) := by
  induction bs with
  | nil => rfl
  | cons p rest ih =>
    obtain ⟨b, jr⟩ := p
    simp only [loadTenantL, ih, List.filterMap_cons, List.filter_cons]
    cases hp : parseRecL jr with
    | none => simp [hp]
    | some r => simp [hp]

/-! ## Claims -/

/-- C3: for every known boss name and all `hh ∈ [0,23]`, `mm ∈ [0,59]`,
the occurrence computation returns `kill` (lastOccurredAt) on the
calendar date of `now` at `hh:mm:00.000`, and `spawn`
(nextOccurrenceAt) exactly `cycle` hours later on the timeline.  The
date conjuncts hold unconditionally — in particular also when the
resulting `kill` is later than `now`: no date adjustment is made. -/
theorem claim_C3 (boss : String) (cycle hh mm : Nat) (now : DT)
    (hb : alookup boss BOSS_CYCLE = some cycle)
    (hhh : hh ≤ 23) (hmm : mm ≤ 59) (hf : now.Fields) :
    calc_spawn boss hh mm now =
      some (addHours (replaceHM now hh mm) cycle, replaceHM now hh mm, cycle) ∧
    (replaceHM now hh mm).year = now.year ∧
    (replaceHM now hh mm).month = now.month ∧
    (replaceHM now hh mm).day = now.day ∧
    (replaceHM now hh mm).hour = hh ∧
    (replaceHM now hh mm).minute = mm ∧
    (replaceHM now hh mm).second = 0 ∧
    (replaceHM now hh mm).micro = 0 ∧
    (addHours (replaceHM now hh mm) cycle).toMicros =
      (replaceHM now hh mm).toMicros + cycle * usPerHour := by
  refine ⟨?_, rfl, rfl, rfl, rfl, rfl, rfl, rfl, ?_⟩
  · unfold calc_spawn
    rw [hb]
  · exact toMicros_addHours (fields_replaceHM hf hhh hmm) cycle

/-- Witness for C3 at boss 에고 (cycle 16), kill time 13:30, reference
now 09:00 — a case where the recorded kill time lies in the future of
`now` and is still not date-adjusted. -/
theorem claim_C3_witness :
    alookup "에고" BOSS_CYCLE = some 16 ∧
    (DT.mk 2024 1 15 9 0 0 0).Fields ∧
    DT.ltB ⟨2024, 1, 15, 9, 0, 0, 0⟩ (replaceHM ⟨2024, 1, 15, 9, 0, 0, 0⟩ 13 30) = true ∧
    (calc_spawn "에고" 13 30 ⟨2024, 1, 15, 9, 0, 0, 0⟩ =
      some (addHours (replaceHM ⟨2024, 1, 15, 9, 0, 0, 0⟩ 13 30) 16,
        replaceHM ⟨2024, 1, 15, 9, 0, 0, 0⟩ 13 30, 16) ∧
    (replaceHM ⟨2024, 1, 15, 9, 0, 0, 0⟩ 13 30).year = 2024 ∧
    (replaceHM ⟨2024, 1, 15, 9, 0, 0, 0⟩ 13 30).month = 1 ∧
    (replaceHM ⟨2024, 1, 15, 9, 0, 0, 0⟩ 13 30).day = 15 ∧
    (replaceHM ⟨2024, 1, 15, 9, 0, 0, 0⟩ 13 30).hour = 13 ∧
    (replaceHM ⟨2024, 1, 15, 9, 0, 0, 0⟩ 13 30).minute = 30 ∧
    (replaceHM ⟨2024, 1, 15, 9, 0, 0, 0⟩ 13 30).second = 0 ∧
    (replaceHM ⟨2024, 1, 15, 9, 0, 0, 0⟩ 13 30).micro = 0 ∧
    (addHours (replaceHM ⟨2024, 1, 15, 9, 0, 0, 0⟩ 13 30) 16).toMicros =
      (replaceHM ⟨2024, 1, 15, 9, 0, 0, 0⟩ 13 30).toMicros + 16 * usPerHour) :=
  ⟨rfl, by decide, by decide,
    claim_C3 "에고" 16 13 30 ⟨2024, 1, 15, 9, 0, 0, 0⟩ rfl (by decide)
      (by decide) (by decide)⟩

/-- C10: a message whose author is a bot account returns immediately:
no store mutation, no reply, no persistence. -/
theorem claim_C10 (s : Store) (now : DT) (content : String) (g ch : Int) :
    on_message s now ⟨true, content, g, ch⟩ = (s, [], false) := rfl

/-- C7: when the persisted document exists but is corrupt as a whole,
load initializes the store to empty and immediately invokes a save that
writes a fresh empty document. -/
theorem claim_C7 :
    load_data .corrupt = ⟨[], [save_data []], []⟩ ∧ save_data [] = [] :=
  ⟨rfl, rfl⟩

/-- C5 (code bug witness): with a due record whose channel resolves and
whose `ch.send` raises, the tick evaluates to `.error`: the exception
propagates out of the loop body (killing the `alarm_loop` task) instead
of being caught and logged.  The record is left unmutated and unsaved,
but there is no next tick to retry it on. -/
theorem claim_C5_code_bug :
    alarmTick (fun _ => true) (fun _ => false) ⟨2024, 1, 15, 13, 31, 0, 0⟩
      [(1, [("에고", ⟨⟨2024, 1, 15, 13, 30, 0, 0⟩, ⟨2024, 1, 14, 21, 30, 0, 0⟩, 5, false⟩)])] =
    .error ([(1, [("에고", ⟨⟨2024, 1, 15, 13, 30, 0, 0⟩, ⟨2024, 1, 14, 21, 30, 0, 0⟩, 5, false⟩)])], []) :=
  rfl

/-- C1: for every tenant `g` and registered record `(b, r)` whose
truncated `nextOccurrenceAt` is at or before the tick's truncated now
and whose destination resolves, one tick (all sends succeeding) sends
exactly one final alert for that record, sends no pre-alert for it (the
pre-alert is skipped also when its own window condition would hold,
because `now < spawn` fails), and removes the record from the store. -/
theorem claim_C1 (res : Int → Bool) (now : DT) (s : Store) (g : Int)
    (b : String) (es : Entries) (r : Rec) (hk : storeKeysOk s)
    (hg : alookup g s = some es) (hb : alookup b es = some r)
    (hres : res r.channel = true)
    (hdue : DT.leB (truncMin r.spawn) (truncMin now) = true) :
    alarmTick res allOk now s =
      .ok (storeStep res (truncMin now) s, storeAlerts res (truncMin now) s,
        if storeChanged res (truncMin now) s = true then
          [save_data (storeStep res (truncMin now) s)] else []) ∧
    alertsFor g b .fin (storeAlerts res (truncMin now) s) = 1 ∧
    alertsFor g b .pre (storeAlerts res (truncMin now) s) = 0 ∧
    alookup g (storeStep res (truncMin now) s) =
      some (entriesStep res (truncMin now) g es) ∧
    alookup b (entriesStep res (truncMin now) g es) = none := by
  have hmem := alookup_mem hg
  have hndin : (es.map Prod.fst).Nodup := hk.2 (g, es) hmem
  have hrec := tickRecOk_final res (truncMin now) g b r hres hdue
  refine ⟨alarmTick_allOk res now s, ?_, ?_, ?_, ?_⟩
  · rw [alertsFor_store res (truncMin now) g b .fin hk.1 hg,
      alertsFor_entries res (truncMin now) g b .fin hndin hb, hrec]
    simp [alertsFor]
  · rw [alertsFor_store res (truncMin now) g b .pre hk.1 hg,
      alertsFor_entries res (truncMin now) g b .pre hndin hb, hrec]
    simp [alertsFor]
  · rw [alookup_storeStep, hg]
    rfl
  · rw [alookup_entriesStep res (truncMin now) g hndin hb, hrec]

/-- Witness for C1: one tenant, one due 에고 record, resolvable channel,
all sends succeeding. -/
theorem claim_C1_witness :
    storeKeysOk [((1 : Int),
      [("에고", Rec.mk ⟨2024, 1, 15, 13, 30, 0, 0⟩ ⟨2024, 1, 14, 21, 30, 0, 0⟩ 5 false)])] ∧
    ((fun _ => true) : Int → Bool) 5 = true ∧
    DT.leB (truncMin (DT.mk 2024 1 15 13 30 0 0)) (truncMin ⟨2024, 1, 15, 13, 31, 22, 5⟩) = true ∧
    (alarmTick (fun _ => true) allOk ⟨2024, 1, 15, 13, 31, 22, 5⟩
        [((1 : Int), [("에고", Rec.mk ⟨2024, 1, 15, 13, 30, 0, 0⟩ ⟨2024, 1, 14, 21, 30, 0, 0⟩ 5 false)])] =
      .ok (storeStep (fun _ => true) (truncMin ⟨2024, 1, 15, 13, 31, 22, 5⟩)
          [((1 : Int), [("에고", Rec.mk ⟨2024, 1, 15, 13, 30, 0, 0⟩ ⟨2024, 1, 14, 21, 30, 0, 0⟩ 5 false)])],
        storeAlerts (fun _ => true) (truncMin ⟨2024, 1, 15, 13, 31, 22, 5⟩)
          [((1 : Int), [("에고", Rec.mk ⟨2024, 1, 15, 13, 30, 0, 0⟩ ⟨2024, 1, 14, 21, 30, 0, 0⟩ 5 false)])],
        if storeChanged (fun _ => true) (truncMin ⟨2024, 1, 15, 13, 31, 22, 5⟩)
            [((1 : Int), [("에고", Rec.mk ⟨2024, 1, 15, 13, 30, 0, 0⟩ ⟨2024, 1, 14, 21, 30, 0, 0⟩ 5 false)])] = true then
          [save_data (storeStep (fun _ => true) (truncMin ⟨2024, 1, 15, 13, 31, 22, 5⟩)
            [((1 : Int), [("에고", Rec.mk ⟨2024, 1, 15, 13, 30, 0, 0⟩ ⟨2024, 1, 14, 21, 30, 0, 0⟩ 5 false)])])]
        else []) ∧
    alertsFor 1 "에고" .fin (storeAlerts (fun _ => true) (truncMin ⟨2024, 1, 15, 13, 31, 22, 5⟩)
        [((1 : Int), [("에고", Rec.mk ⟨2024, 1, 15, 13, 30, 0, 0⟩ ⟨2024, 1, 14, 21, 30, 0, 0⟩ 5 false)])]) = 1 ∧
    alertsFor 1 "에고" .pre (storeAlerts (fun _ => true) (truncMin ⟨2024, 1, 15, 13, 31, 22, 5⟩)
        [((1 : Int), [("에고", Rec.mk ⟨2024, 1, 15, 13, 30, 0, 0⟩ ⟨2024, 1, 14, 21, 30, 0, 0⟩ 5 false)])]) = 0 ∧
    alookup 1 (storeStep (fun _ => true) (truncMin ⟨2024, 1, 15, 13, 31, 22, 5⟩)
        [((1 : Int), [("에고", Rec.mk ⟨2024, 1, 15, 13, 30, 0, 0⟩ ⟨2024, 1, 14, 21, 30, 0, 0⟩ 5 false)])]) =
      some (entriesStep (fun _ => true) (truncMin ⟨2024, 1, 15, 13, 31, 22, 5⟩) 1
        [("에고", Rec.mk ⟨2024, 1, 15, 13, 30, 0, 0⟩ ⟨2024, 1, 14, 21, 30, 0, 0⟩ 5 false)]) ∧
    alookup "에고" (entriesStep (fun _ => true) (truncMin ⟨2024, 1, 15, 13, 31, 22, 5⟩) 1
        [("에고", Rec.mk ⟨2024, 1, 15, 13, 30, 0, 0⟩ ⟨2024, 1, 14, 21, 30, 0, 0⟩ 5 false)]) = none) :=
  ⟨by decide, rfl, by decide,
    claim_C1 (fun _ => true) ⟨2024, 1, 15, 13, 31, 22, 5⟩
      [((1 : Int), [("에고", Rec.mk ⟨2024, 1, 15, 13, 30, 0, 0⟩ ⟨2024, 1, 14, 21, 30, 0, 0⟩ 5 false)])]
      1 "에고"
      [("에고", Rec.mk ⟨2024, 1, 15, 13, 30, 0, 0⟩ ⟨2024, 1, 14, 21, 30, 0, 0⟩ 5 false)]
      (Rec.mk ⟨2024, 1, 15, 13, 30, 0, 0⟩ ⟨2024, 1, 14, 21, 30, 0, 0⟩ 5 false)
      (by decide) (by decide) (by decide) rfl (by decide)⟩

/-- C2: for every record with `preAlertSent = false` whose destination
resolves, when the truncated now lies in the pre-alert window
(`spawn - 10min ≤ now < spawn`), one tick (all sends succeeding) sends
exactly one pre-alert for the record and sets its flag; a second tick
from the resulting store at the same now sends no further pre-alert and
leaves the record's state identical — marking is idempotent. -/
theorem claim_C2 (res : Int → Bool) (now : DT) (s : Store) (g : Int)
    (b : String) (es : Entries) (r : Rec) (hk : storeKeysOk s)
    (hg : alookup g s = some es) (hb : alookup b es = some r)
    (hres : res r.channel = true) (hsent : r.prealert_sent = false)
    (hpre : DT.leB (subMinutes (truncMin r.spawn) PRE_ALERT_MIN)
      (truncMin now) = true)
    (hlt : DT.ltB (truncMin now) (truncMin r.spawn) = true) :
    alarmTick res allOk now s =
      .ok (storeStep res (truncMin now) s, storeAlerts res (truncMin now) s,
        if storeChanged res (truncMin now) s = true then
          [save_data (storeStep res (truncMin now) s)] else []) ∧
    alertsFor g b .pre (storeAlerts res (truncMin now) s) = 1 ∧
    alookup g (storeStep res (truncMin now) s) =
      some (entriesStep res (truncMin now) g es) ∧
    alookup b (entriesStep res (truncMin now) g es) =
      some { r with prealert_sent := true } ∧
    alertsFor g b .pre (storeAlerts res (truncMin now)
      (storeStep res (truncMin now) s)) = 0 ∧
    alookup g (storeStep res (truncMin now) (storeStep res (truncMin now) s)) =
      some (entriesStep res (truncMin now) g (entriesStep res (truncMin now) g es)) ∧
    alookup b (entriesStep res (truncMin now) g (entriesStep res (truncMin now) g es)) =
      some { r with prealert_sent := true } := by
  have hmem := alookup_mem hg
  have hndin : (es.map Prod.fst).Nodup := hk.2 (g, es) hmem
  have hrec := tickRecOk_pre res (truncMin now) g b r hres hsent hpre hlt
  have hb1 : alookup b (entriesStep res (truncMin now) g es) =
      some { r with prealert_sent := true } := by
    rw [alookup_entriesStep res (truncMin now) g hndin hb, hrec]
  have hg1 : alookup g (storeStep res (truncMin now) s) =
      some (entriesStep res (truncMin now) g es) := by
    rw [alookup_storeStep, hg]
    rfl
  have hndin1 : ((entriesStep res (truncMin now) g es).map Prod.fst).Nodup :=
    (entriesStep_keys_sublist res (truncMin now) g es).nodup hndin
  have hrec1 := tickRecOk_inert res (truncMin now) g b
    { r with prealert_sent := true } rfl hlt
  refine ⟨alarmTick_allOk res now s, ?_, hg1, hb1, ?_, ?_, ?_⟩
  · rw [alertsFor_store res (truncMin now) g b .pre hk.1 hg,
      alertsFor_entries res (truncMin now) g b .pre hndin hb, hrec]
    simp [alertsFor]
  · rw [alertsFor_store res (truncMin now) g b .pre
        (storeKeysOk_storeStep res (truncMin now) hk).1 hg1,
      alertsFor_entries res (truncMin now) g b .pre hndin1 hb1, hrec1]
    rfl
  · rw [alookup_storeStep, hg1]
    rfl
  · rw [alookup_entriesStep res (truncMin now) g hndin1 hb1, hrec1]

/-- Witness for C2: one tenant, one 에고 record nine minutes before its
spawn with the flag clear; the pre-alert fires once, the flag is set,
and a second tick at the same time is a no-op on the record. -/
theorem claim_C2_witness :
    storeKeysOk [((1 : Int),
      [("에고", Rec.mk ⟨2024, 1, 15, 13, 30, 0, 0⟩ ⟨2024, 1, 14, 21, 30, 0, 0⟩ 5 false)])] ∧
    DT.leB (subMinutes (truncMin (DT.mk 2024 1 15 13 30 0 0)) PRE_ALERT_MIN)
      (truncMin ⟨2024, 1, 15, 13, 21, 7, 9⟩) = true ∧
    DT.ltB (truncMin ⟨2024, 1, 15, 13, 21, 7, 9⟩)
      (truncMin (DT.mk 2024 1 15 13 30 0 0)) = true ∧
    (alarmTick (fun _ => true) allOk ⟨2024, 1, 15, 13, 21, 7, 9⟩
        [((1 : Int), [("에고", Rec.mk ⟨2024, 1, 15, 13, 30, 0, 0⟩ ⟨2024, 1, 14, 21, 30, 0, 0⟩ 5 false)])] =
      .ok (storeStep (fun _ => true) (truncMin ⟨2024, 1, 15, 13, 21, 7, 9⟩)
          [((1 : Int), [("에고", Rec.mk ⟨2024, 1, 15, 13, 30, 0, 0⟩ ⟨2024, 1, 14, 21, 30, 0, 0⟩ 5 false)])],
        storeAlerts (fun _ => true) (truncMin ⟨2024, 1, 15, 13, 21, 7, 9⟩)
          [((1 : Int), [("에고", Rec.mk ⟨2024, 1, 15, 13, 30, 0, 0⟩ ⟨2024, 1, 14, 21, 30, 0, 0⟩ 5 false)])],
        if storeChanged (fun _ => true) (truncMin ⟨2024, 1, 15, 13, 21, 7, 9⟩)
            [((1 : Int), [("에고", Rec.mk ⟨2024, 1, 15, 13, 30, 0, 0⟩ ⟨2024, 1, 14, 21, 30, 0, 0⟩ 5 false)])] = true then
          [save_data (storeStep (fun _ => true) (truncMin ⟨2024, 1, 15, 13, 21, 7, 9⟩)
            [((1 : Int), [("에고", Rec.mk ⟨2024, 1, 15, 13, 30, 0, 0⟩ ⟨2024, 1, 14, 21, 30, 0, 0⟩ 5 false)])])]
        else []) ∧
    alertsFor 1 "에고" .pre (storeAlerts (fun _ => true) (truncMin ⟨2024, 1, 15, 13, 21, 7, 9⟩)
        [((1 : Int), [("에고", Rec.mk ⟨2024, 1, 15, 13, 30, 0, 0⟩ ⟨2024, 1, 14, 21, 30, 0, 0⟩ 5 false)])]) = 1 ∧
    alookup 1 (storeStep (fun _ => true) (truncMin ⟨2024, 1, 15, 13, 21, 7, 9⟩)
        [((1 : Int), [("에고", Rec.mk ⟨2024, 1, 15, 13, 30, 0, 0⟩ ⟨2024, 1, 14, 21, 30, 0, 0⟩ 5 false)])]) =
      some (entriesStep (fun _ => true) (truncMin ⟨2024, 1, 15, 13, 21, 7, 9⟩) 1
        [("에고", Rec.mk ⟨2024, 1, 15, 13, 30, 0, 0⟩ ⟨2024, 1, 14, 21, 30, 0, 0⟩ 5 false)]) ∧
    alookup "에고" (entriesStep (fun _ => true) (truncMin ⟨2024, 1, 15, 13, 21, 7, 9⟩) 1
        [("에고", Rec.mk ⟨2024, 1, 15, 13, 30, 0, 0⟩ ⟨2024, 1, 14, 21, 30, 0, 0⟩ 5 false)]) =
      some (Rec.mk ⟨2024, 1, 15, 13, 30, 0, 0⟩ ⟨2024, 1, 14, 21, 30, 0, 0⟩ 5 true) ∧
    alertsFor 1 "에고" .pre (storeAlerts (fun _ => true) (truncMin ⟨2024, 1, 15, 13, 21, 7, 9⟩)
      (storeStep (fun _ => true) (truncMin ⟨2024, 1, 15, 13, 21, 7, 9⟩)
        [((1 : Int), [("에고", Rec.mk ⟨2024, 1, 15, 13, 30, 0, 0⟩ ⟨2024, 1, 14, 21, 30, 0, 0⟩ 5 false)])])) = 0 ∧
    alookup 1 (storeStep (fun _ => true) (truncMin ⟨2024, 1, 15, 13, 21, 7, 9⟩)
        (storeStep (fun _ => true) (truncMin ⟨2024, 1, 15, 13, 21, 7, 9⟩)
          [((1 : Int), [("에고", Rec.mk ⟨2024, 1, 15, 13, 30, 0, 0⟩ ⟨2024, 1, 14, 21, 30, 0, 0⟩ 5 false)])])) =
      some (entriesStep (fun _ => true) (truncMin ⟨2024, 1, 15, 13, 21, 7, 9⟩) 1
        (entriesStep (fun _ => true) (truncMin ⟨2024, 1, 15, 13, 21, 7, 9⟩) 1
          [("에고", Rec.mk ⟨2024, 1, 15, 13, 30, 0, 0⟩ ⟨2024, 1, 14, 21, 30, 0, 0⟩ 5 false)])) ∧
    alookup "에고" (entriesStep (fun _ => true) (truncMin ⟨2024, 1, 15, 13, 21, 7, 9⟩) 1
        (entriesStep (fun _ => true) (truncMin ⟨2024, 1, 15, 13, 21, 7, 9⟩) 1
          [("에고", Rec.mk ⟨2024, 1, 15, 13, 30, 0, 0⟩ ⟨2024, 1, 14, 21, 30, 0, 0⟩ 5 false)])) =
      some (Rec.mk ⟨2024, 1, 15, 13, 30, 0, 0⟩ ⟨2024, 1, 14, 21, 30, 0, 0⟩ 5 true)) :=
  ⟨by decide, by decide, by decide,
    claim_C2 (fun _ => true) ⟨2024, 1, 15, 13, 21, 7, 9⟩
      [((1 : Int), [("에고", Rec.mk ⟨2024, 1, 15, 13, 30, 0, 0⟩ ⟨2024, 1, 14, 21, 30, 0, 0⟩ 5 false)])]
      1 "에고"
      [("에고", Rec.mk ⟨2024, 1, 15, 13, 30, 0, 0⟩ ⟨2024, 1, 14, 21, 30, 0, 0⟩ 5 false)]
      (Rec.mk ⟨2024, 1, 15, 13, 30, 0, 0⟩ ⟨2024, 1, 14, 21, 30, 0, 0⟩ 5 false)
      (by decide) (by decide) (by decide) rfl rfl (by decide) (by decide)⟩

/-- C8: tenant isolation.  For distinct tenants `A ≠ B`: (i) any
message handled for guild `A` (listing, deletion, registration, or no
command) leaves `B`'s records untouched; (ii) the replies and the
persistence flag produced for `A` depend only on `A`'s own entry, not on
the rest of the store; (iii) in a scheduler tick (all sends
succeeding), `B`'s resulting entry is a function of `B`'s own entry
alone (`entriesStep` applied to it), so processing `A`'s records never
mutates `B`'s. -/
theorem claim_C8 (A B : Int) (hAB : A ≠ B) :
    (∀ (s : Store) (now : DT) (ctx : MsgCtx), ctx.guild = A →
      alookup B (on_message s now ctx).1 = alookup B s) ∧
    (∀ (s₁ s₂ : Store) (now : DT) (ctx : MsgCtx), ctx.guild = A →
      alookup A s₁ = alookup A s₂ →
      (on_message s₁ now ctx).2 = (on_message s₂ now ctx).2) ∧
    (∀ (res : Int → Bool) (now : DT) (s s' : Store) (as : List Alert)
        (saves : List Doc),
      alarmTick res allOk now s = .ok (s', as, saves) →
      alookup B s' = (alookup B s).map (entriesStep res (truncMin now) B)) := by
  refine ⟨?_, ?_, ?_⟩
  · intro s now ctx hguild
    rcases on_message_store s now ctx with h | ⟨b, h⟩ | ⟨b, r, h⟩
    · rw [h]
    · rw [h, hguild]
      exact alookup_storeDelete_ne hAB b s
    · rw [h, hguild]
      exact alookup_storeInsert_ne hAB b r s
  · intro s₁ s₂ now ctx hguild h
    unfold on_message register_boss
    dsimp only
    rw [hguild, h]
    repeat' split
    all_goals rfl
  · intro res now s s' as saves h
    rw [alarmTick_allOk] at h
    injection h with h
    rw [Prod.mk.injEq, Prod.mk.injEq] at h
    obtain ⟨h1, -, -⟩ := h
    rw [← h1, alookup_storeStep]

/-- Witness for C8 at tenants 1 and 2: a deletion by tenant 1 leaves
tenant 2's record in place, replies to tenant 1 ignore tenant 2's
records, and a tick maps tenant 2's entry through its own step. -/
theorem claim_C8_witness :
    (1 : Int) ≠ 2 ∧
    (alookup 2 (on_message
        [((1 : Int), [("에고", Rec.mk ⟨2024, 1, 16, 5, 30, 0, 0⟩ ⟨2024, 1, 15, 13, 30, 0, 0⟩ 5 false)]),
         ((2 : Int), [("가레스", Rec.mk ⟨2024, 1, 16, 8, 0, 0, 0⟩ ⟨2024, 1, 15, 8, 0, 0, 0⟩ 9 false)])]
        ⟨2024, 1, 15, 14, 0, 0, 0⟩ ⟨false, ".삭제 에고", 1, 5⟩).1 =
      alookup 2
        [((1 : Int), [("에고", Rec.mk ⟨2024, 1, 16, 5, 30, 0, 0⟩ ⟨2024, 1, 15, 13, 30, 0, 0⟩ 5 false)]),
         ((2 : Int), [("가레스", Rec.mk ⟨2024, 1, 16, 8, 0, 0, 0⟩ ⟨2024, 1, 15, 8, 0, 0, 0⟩ 9 false)])]) ∧
    ((on_message
        [((1 : Int), [("에고", Rec.mk ⟨2024, 1, 16, 5, 30, 0, 0⟩ ⟨2024, 1, 15, 13, 30, 0, 0⟩ 5 false)]),
         ((2 : Int), [("가레스", Rec.mk ⟨2024, 1, 16, 8, 0, 0, 0⟩ ⟨2024, 1, 15, 8, 0, 0, 0⟩ 9 false)])]
        ⟨2024, 1, 15, 14, 0, 0, 0⟩ ⟨false, ".보스", 1, 5⟩).2 =
      (on_message
        [((1 : Int), [("에고", Rec.mk ⟨2024, 1, 16, 5, 30, 0, 0⟩ ⟨2024, 1, 15, 13, 30, 0, 0⟩ 5 false)])]
        ⟨2024, 1, 15, 14, 0, 0, 0⟩ ⟨false, ".보스", 1, 5⟩).2) ∧
    (alookup 2 (storeStep (fun _ => true) (truncMin ⟨2024, 1, 15, 14, 0, 0, 0⟩)
        [((1 : Int), [("에고", Rec.mk ⟨2024, 1, 16, 5, 30, 0, 0⟩ ⟨2024, 1, 15, 13, 30, 0, 0⟩ 5 false)]),
         ((2 : Int), [("가레스", Rec.mk ⟨2024, 1, 16, 8, 0, 0, 0⟩ ⟨2024, 1, 15, 8, 0, 0, 0⟩ 9 false)])]) =
      (alookup 2
        [((1 : Int), [("에고", Rec.mk ⟨2024, 1, 16, 5, 30, 0, 0⟩ ⟨2024, 1, 15, 13, 30, 0, 0⟩ 5 false)]),
         ((2 : Int), [("가레스", Rec.mk ⟨2024, 1, 16, 8, 0, 0, 0⟩ ⟨2024, 1, 15, 8, 0, 0, 0⟩ 9 false)])]).map
        (entriesStep (fun _ => true) (truncMin ⟨2024, 1, 15, 14, 0, 0, 0⟩) 2)) := by
  have h := claim_C8 1 2 (by decide)
  exact ⟨by decide,
    h.1 _ ⟨2024, 1, 15, 14, 0, 0, 0⟩ ⟨false, ".삭제 에고", 1, 5⟩ rfl,
    h.2.1 _ _ ⟨2024, 1, 15, 14, 0, 0, 0⟩ ⟨false, ".보스", 1, 5⟩ rfl (by decide),
    h.2.2 (fun _ => true) ⟨2024, 1, 15, 14, 0, 0, 0⟩ _ _ _ _ (by rfl)⟩

/-- C9: `parse_time` accepts exactly the strings of the shape "optional
whitespace, one or two digits, a colon, exactly two digits, optional
whitespace" whose hour is at most 23 and minute at most 59; in
particular `"9:5"` (one-digit minute, in-range values) is rejected, and
a registration whose time string fails to parse replies with the format
rejection and leaves the store unchanged with no save. -/
theorem claim_C9 :
    (∀ s : String, (parse_time s).isSome = true ↔ SpecTimeShape s) ∧
    parse_time "9:5" = none ∧
    (∀ (s : Store) (now : DT) (g cid : Int) (bossName timeStr : String),
      parse_time timeStr = none →
      register_boss s now g cid bossName timeStr =
        (s, [(cid, .formatError)], false)) := by
  refine ⟨fun s => ⟨parse_time_shape, shape_parse_time⟩, by decide, ?_⟩
  intro s now g cid bossName timeStr h
  unfold register_boss
  rw [h]

/-- Witness for C9: the shape holds for a string the parser accepts,
and a registration attempt with the rejected `"9:5"` replies with the
format error and does not touch the store. -/
theorem claim_C9_witness :
    SpecTimeShape " 13:30 " ∧
    parse_time "9:5" = none ∧
    register_boss [] ⟨2024, 1, 15, 9, 0, 0, 0⟩ 1 2 "에고" "9:5" =
      ([], [((2 : Int), .formatError)], false) :=
  ⟨(claim_C9.1 " 13:30 ").mp (by decide), claim_C9.2.1,
    claim_C9.2.2 [] ⟨2024, 1, 15, 9, 0, 0, 0⟩ 1 2 "에고" "9:5" (by decide)⟩

/-- C4: for every store whose records satisfy the data-model invariants
(distinct tenant keys and in-range timestamps), loading the document
produced by saving that store reconstructs the store exactly — tenant
keys, boss names, both timestamps, channel and prealert flag all
preserved — with no fresh save and no skipped record:
`load_data (save_data s) = s`. -/
theorem claim_C4 (s : Store)
    (hnd : (s.map Prod.fst).Nodup)
    (hval : ∀ p ∈ s, ∀ q ∈ p.2, q.2.spawn.Valid ∧ q.2.kill.Valid) :
    load_data (.parsed (save_data s)) = ⟨s, [], []⟩ := by
  unfold load_data
  dsimp only
  rw [loadGo_save s [] [] hnd (by simp) hval]
  rw [List.nil_append]

/-- Witness for C4: a concrete one-tenant, one-boss store with valid
timestamps round-trips through `save_data` and `load_data` unchanged. -/
theorem claim_C4_witness :
    (([((1 : Int), [("에고", Rec.mk ⟨2024, 1, 15, 13, 30, 0, 0⟩
        ⟨2024, 1, 14, 21, 30, 0, 0⟩ 42 false)])] : Store).map Prod.fst).Nodup ∧
    (∀ p ∈ ([((1 : Int), [("에고", Rec.mk ⟨2024, 1, 15, 13, 30, 0, 0⟩
        ⟨2024, 1, 14, 21, 30, 0, 0⟩ 42 false)])] : Store), ∀ q ∈ p.2,
      q.2.spawn.Valid ∧ q.2.kill.Valid) ∧
    load_data (.parsed (save_data
        [((1 : Int), [("에고", Rec.mk ⟨2024, 1, 15, 13, 30, 0, 0⟩
          ⟨2024, 1, 14, 21, 30, 0, 0⟩ 42 false)])])) =
      ⟨[((1 : Int), [("에고", Rec.mk ⟨2024, 1, 15, 13, 30, 0, 0⟩
        ⟨2024, 1, 14, 21, 30, 0, 0⟩ 42 false)])], [], []⟩ :=
  ⟨by decide, by decide, claim_C4 _ (by decide) (by decide)⟩

/-- C6 (amended): the per-record `try` isolates each record of the
load: a record whose parse raises is skipped and its name logged while
every other record of the document — including others of the same
tenant — loads exactly as it would without it; a missing `spawn`,
`kill` or `channel` key raises, as does a `spawn` value that is not a
string; a document whose tenant keys are canonical decimal integers
loads without aborting or writing a fresh file.  However, contrary to
the claim, not every missing field causes a skip: a record missing
only `prealert_sent` loads with the flag defaulted to `False`, and the
channel value is copied untyped, so a record whose channel is any
present JSON value — even a string — still loads. -/
theorem claim_C6 :
    (∀ (bs1 bs2 : List (String × JRec)) (b : String) (jr : JRec),
      parseRecL jr = none →
      loadTenantL (bs1 ++ (b, jr) :: bs2) =
        ((loadTenantL (bs1 ++ bs2)).1,
         (loadTenantL bs1).2 ++ b :: (loadTenantL bs2).2)) ∧
    (∀ (bs1 bs2 : List (String × JRec)) (b : String) (jr : JRec) (r : LRec),
      parseRecL jr = some r →
      loadTenantL (bs1 ++ (b, jr) :: bs2) =
        ((loadTenantL bs1).1 ++ (b, r) :: (loadTenantL bs2).1,
         (loadTenantL (bs1 ++ bs2)).2)) ∧
    (∀ d : JRec, (alookup "spawn" d = none ∨ alookup "kill" d = none ∨
        alookup "channel" d = none) → parseRecL d = none) ∧
    (∀ (d : JRec) (v : JVal), alookup "spawn" d = some v →
      (∀ s, v ≠ JVal.jstr s) → parseRecL d = none) ∧
    (∀ d : Doc, (∀ p ∈ d, ∃ g : Int, p.1 = pyIntStr g) →
      (load_data (.parsed d)).saves = []) ∧
    (∀ (t1 t2 : DT) (cv : JVal), t1.Valid → t2.Valid →
      parseRecL [("spawn", .jstr (dtStr t1)), ("kill", .jstr (dtStr t2)),
        ("channel", cv)] = some ⟨t1, t2, cv, false⟩) := by
  refine ⟨?_, ?_, ?_, ?_, ?_, ?_⟩
  · intro bs1 bs2 b jr hjr
    simp [loadTenantL_spec, List.filterMap_append, List.filter_append, hjr]
  · intro bs1 bs2 b jr r hjr
    simp [loadTenantL_spec, List.filterMap_append, List.filter_append, hjr]
  · intro d h
    unfold parseRecL
    split <;> simp_all
  · intro d v hv hvs
    unfold parseRecL
    split
    · rename_i s1 s2 cv h1 h2 h3
      rw [hv] at h1
      exact absurd (Option.some.inj h1) (hvs s1)
    · rfl
  · intro d h
    unfold load_data
    dsimp only
    apply loadGo_saves_nil
    intro p hp
    obtain ⟨g, hg⟩ := h p hp
    rw [hg, pyInt_pyIntStr]
    rfl
  · intro t1 t2 cv h1 h2
    simp only [parseRecL, alookup, String.reduceEq, reduceIte,
      fromiso_dtStr h1, fromiso_dtStr h2, Option.map_none', Option.getD_none]

/-- Counterexample to C6 as stated: a persisted record with a missing
field — `prealert_sent` is absent — is not skipped and not logged; it
loads with the flag defaulted to `False`. -/
theorem claim_C6_counterexample :
    load_data (.parsed [("7", [("에고",
      [("spawn", JVal.jstr "2024-01-15 13:30:00+09:00"),
       ("kill", JVal.jstr "2024-01-14 21:30:00+09:00"),
       ("channel", JVal.jnum 42)])])]) =
    ⟨[((7 : Int), [("에고", Rec.mk ⟨2024, 1, 15, 13, 30, 0, 0⟩
        ⟨2024, 1, 14, 21, 30, 0, 0⟩ 42 false)])], [], []⟩ := by
  decide

/-- Witness for C6: a record whose timestamp string does not parse,
placed before an intact record of the same tenant, is skipped and
logged while the intact one loads exactly as if alone; the empty
record and a record whose `spawn` value is a number parse to `none`; a
one-tenant document with the canonical key `"0"` loads without a fresh
save; and a record without `prealert_sent` whose channel is the string
`"oops"` loads with the flag `false` and the channel kept verbatim. -/
theorem claim_C6_witness :
    (loadTenantL [("가레스", [("spawn", JVal.jstr "bad")]),
        ("에고", [("spawn", JVal.jstr (dtStr ⟨2024, 1, 15, 13, 30, 0, 0⟩)),
          ("kill", JVal.jstr (dtStr ⟨2024, 1, 14, 21, 30, 0, 0⟩)),
          ("channel", JVal.jnum 42), ("prealert_sent", JVal.jbool true)])] =
      ((loadTenantL [("에고",
          [("spawn", JVal.jstr (dtStr ⟨2024, 1, 15, 13, 30, 0, 0⟩)),
           ("kill", JVal.jstr (dtStr ⟨2024, 1, 14, 21, 30, 0, 0⟩)),
           ("channel", JVal.jnum 42), ("prealert_sent", JVal.jbool true)])]).1,
       (loadTenantL ([] : List (String × JRec))).2 ++ "가레스" ::
         (loadTenantL [("에고",
          [("spawn", JVal.jstr (dtStr ⟨2024, 1, 15, 13, 30, 0, 0⟩)),
           ("kill", JVal.jstr (dtStr ⟨2024, 1, 14, 21, 30, 0, 0⟩)),
           ("channel", JVal.jnum 42), ("prealert_sent", JVal.jbool true)])]).2)) ∧
    parseRecL [] = none ∧
    parseRecL [("spawn", JVal.jnum 3), ("kill", JVal.jstr "x"),
      ("channel", JVal.jnum 1)] = none ∧
    (load_data (.parsed [("0", [])])).saves = [] ∧
    parseRecL [("spawn", JVal.jstr (dtStr ⟨2024, 1, 15, 13, 30, 0, 0⟩)),
      ("kill", JVal.jstr (dtStr ⟨2024, 1, 14, 21, 30, 0, 0⟩)),
      ("channel", JVal.jstr "oops")] =
      some ⟨⟨2024, 1, 15, 13, 30, 0, 0⟩, ⟨2024, 1, 14, 21, 30, 0, 0⟩,
        JVal.jstr "oops", false⟩ :=
  ⟨claim_C6.1 [] _ "가레스" [("spawn", JVal.jstr "bad")] (by decide),
   claim_C6.2.2.1 [] (Or.inl rfl),
   claim_C6.2.2.2.1 [("spawn", JVal.jnum 3), ("kill", JVal.jstr "x"),
      ("channel", JVal.jnum 1)] (JVal.jnum 3) rfl (fun s h => JVal.noConfusion h),
   claim_C6.2.2.2.2.1 [("0", [])] (by
      intro p hp
      simp only [List.mem_singleton] at hp
      subst hp
      exact ⟨0, rfl⟩),
   claim_C6.2.2.2.2.2 ⟨2024, 1, 15, 13, 30, 0, 0⟩ ⟨2024, 1, 14, 21, 30, 0, 0⟩
      (JVal.jstr "oops") (by decide) (by decide)⟩

end BossBot
